import Mathlib

/-!
Verification development for the revui diff viewer core.

The Go sources are embedded shallowly:
* `internal/git` types (`Line`, `Hunk`, `FileDiff`, `ChangedFile`) and the
  unified-diff parser `ParseDiff` (`internal/git/parse.go`),
* the side-by-side pairer `BuildSideBySidePairs` (`internal/ui/sidebyside.go`),
* the interactive `DiffViewer` model (`internal/ui/diffview.go`).

Strings are modelled as `List Char` (a Go `string` viewed as its characters;
input splitting happens on `'\n'` exactly as `strings.Split`).  Go `int`
fields that can go negative in the viewer (cursor, offset, height) are
modelled as `Int`; parser-side counters, which only ever hold parsed
digit strings and increments of them, are modelled as `Nat`.
-/

namespace Revui

/-- `LineType` from internal/git/types.go: the kind of a diff line. -/
inductive LineType where
  | context
  | added
  | removed
deriving DecidableEq, Repr, Inhabited

/-- `Line` from internal/git/types.go. `typ` embeds the Go field `Type`
(`Type` is not a legal field name in Lean). `OldLineNo`/`NewLineNo` are `0`
when unset, exactly as the Go zero value. -/
structure Line where
  Content : List Char
  typ : LineType
  OldLineNo : Nat := 0
  NewLineNo : Nat := 0
deriving DecidableEq, Repr, Inhabited

/-- `Hunk` from internal/git/types.go. -/
structure Hunk where
  OldStart : Nat
  OldCount : Nat
  NewStart : Nat
  NewCount : Nat
  Header : List Char
  Lines : List Line
deriving DecidableEq, Repr, Inhabited

/-- `FileDiff` from internal/git/types.go. -/
structure FileDiff where
  Path : List Char
  Status : List Char := []
  Hunks : List Hunk
deriving DecidableEq, Repr, Inhabited

/-- `ChangedFile` from internal/git/types.go. -/
structure ChangedFile where
  Status : List Char
  Path : List Char
deriving DecidableEq, Repr, Inhabited

/-! ## String helpers (Go `strings` package behaviour) -/

/-- `strings.HasPrefix s pre` on character lists. -/
def hasPref : List Char → List Char → Bool
  | _, [] => true
  | [], _ :: _ => false
  | c :: cs, p :: ps => c = p && hasPref cs ps

/-- `strings.Split raw "\n"`: split on newline, `""` yields `[""]`. -/
def splitLines : List Char → List (List Char)
  | [] => [[]]
  | c :: cs =>
    if c = '\n' then [] :: splitLines cs
    else
      match splitLines cs with
      | [] => [[c]]
      | l :: ls => (c :: l) :: ls

/-! ## Regex matching

The parser uses two anchored regexes; they are embedded as deterministic
character-list matchers with the same semantics on newline-free lines.
-/

/-- Greedily consume a run of decimal digits (`\d+`); `none` when the first
character is not a digit. Returns the value and the rest of the line. -/
def readDigits (cs : List Char) : Option (Nat × List Char) :=
  go cs 0 false
where
  go : List Char → Nat → Bool → Option (Nat × List Char)
    | [], acc, seen => if seen then some (acc, []) else none
    | c :: cs, acc, seen =>
      if '0' ≤ c ∧ c ≤ '9' then
        go cs (acc * 10 + (c.toNat - '0'.toNat)) true
      else if seen then some (acc, c :: cs) else none

/-- `(?:,(\d+))?`: an optional `,`-prefixed digit group. The group matches
only when a `,` is immediately followed by a digit; otherwise it matches
empty and consumes nothing. Returns `(captured value?, rest)`. -/
def readOptCount (cs : List Char) : Option Nat × List Char :=
  match cs with
  | ',' :: rest =>
    match readDigits rest with
    | some (n, rest') => (some n, rest')
    | none => (none, ',' :: rest)
  | _ => (none, cs)

/-- `hunkHeaderRe`: `^@@ -(\d+)(?:,(\d+))? \+(\d+)(?:,(\d+))? @@` (not
anchored at the end, so trailing text is allowed). Returns the four
captures `(oldStart, oldCount?, newStart, newCount?)`. -/
def matchHunkHeader (line : List Char) : Option (Nat × Option Nat × Nat × Option Nat) :=
  match line with
  | '@' :: '@' :: ' ' :: '-' :: rest =>
    match readDigits rest with
    | none => none
    | some (os, rest) =>
      let (oc, rest) := readOptCount rest
      match rest with
      | ' ' :: '+' :: rest =>
        match readDigits rest with
        | none => none
        | some (ns, rest) =>
          let (nc, rest) := readOptCount rest
          match rest with
          | ' ' :: '@' :: '@' :: _ => some (os, oc, ns, nc)
          | _ => none
      | _ => none
  | _ => none

/-- Split `r` at the rightmost occurrence of `" b/"` that leaves a
non-empty suffix (the backtracking behaviour of the greedy `(.+) b/(.+)$`).
The left part may be empty here; the caller rejects that case. -/
def splitAtLastB : List Char → Option (List Char × List Char)
  | [] => none
  | c :: cs =>
    match splitAtLastB cs with
    | some (g1, g2) => some (c :: g1, g2)
    | none =>
      match c, cs with
      | ' ', 'b' :: '/' :: rest =>
        if rest.isEmpty then none else some ([], rest)
      | _, _ => none

/-- `diffHeaderRe`: `^diff --git a/(.+) b/(.+)$`. Returns the two path
captures when the line matches. -/
def matchDiffHeader (line : List Char) : Option (List Char × List Char) :=
  match line with
  | 'd' :: 'i' :: 'f' :: 'f' :: ' ' :: '-' :: '-' :: 'g' :: 'i' :: 't' :: ' ' :: 'a' :: '/' :: rest =>
    match splitAtLastB rest with
    | some (g1, g2) => if g1.isEmpty then none else some (g1, g2)
    | none => none
  | _ => none

/-! ## ParseDiff (internal/git/parse.go) -/

/-- The structural-noise skip in `ParseDiff`: lines beginning `index `,
`old mode `, `new mode `, `new file mode `, `deleted file mode `, `--- `,
`+++ ` are skipped. -/
def isSkipHeader (line : List Char) : Bool :=
  hasPref line "index ".toList ||
  hasPref line "old mode ".toList ||
  hasPref line "new mode ".toList ||
  hasPref line "new file mode ".toList ||
  hasPref line "deleted file mode ".toList ||
  hasPref line "--- ".toList ||
  hasPref line "+++ ".toList

/-- `hunkComplete` from parse.go: true when the hunk has consumed all of
its declared old-side and new-side line budget. -/
def hunkComplete (h : Hunk) : Bool :=
  let oldConsumed := h.Lines.countP (fun l => l.typ = .context ∨ l.typ = .removed)
  let newConsumed := h.Lines.countP (fun l => l.typ = .context ∨ l.typ = .added)
  h.OldCount ≤ oldConsumed && h.NewCount ≤ newConsumed

/-- Append a line to the last hunk of a list (`current.Hunks[len-1].Lines`
mutation in the Go loop). A no-op on the empty list, which the caller
guards against. -/
def appendLineToLast : List Hunk → Line → List Hunk
  | [], _ => []
  | [h], l => [{ h with Lines := h.Lines ++ [l] }]
  | h :: h' :: hs, l => h :: appendLineToLast (h' :: hs) l

/-- One iteration of the `ParseDiff` scan loop: state is the accumulated
diffs plus the in-progress `current` file diff. -/
def parseStep (st : List FileDiff × Option FileDiff) (line : List Char) :
    List FileDiff × Option FileDiff :=
  let (diffs, current) := st
  match matchDiffHeader line with
  | some (_, g2) =>
    (diffs ++ current.toList, some { Path := g2, Hunks := [] })
  | none =>
    if isSkipHeader line then (diffs, current)
    else
      match matchHunkHeader line with
      | some (os, oc, ns, nc) =>
        match current with
        | none => (diffs, none)
        | some cur =>
          (diffs, some { cur with
            Hunks := cur.Hunks ++
              [{ OldStart := os, OldCount := oc.getD 1,
                 NewStart := ns, NewCount := nc.getD 1,
                 Header := line, Lines := [] }] })
      | none =>
        if hasPref line ['\\', ' '] then (diffs, current)
        else
          match current with
          | none => (diffs, none)
          | some cur =>
            match cur.Hunks.getLast? with
            | none => (diffs, some cur)
            | some lastHunk =>
              let push := fun (t : LineType) (content : List Char) =>
                { cur with Hunks := appendLineToLast cur.Hunks { Content := content, typ := t } }
              if hasPref line ['+'] then (diffs, some (push .added line.tail))
              else if hasPref line ['-'] then (diffs, some (push .removed line.tail))
              else if hasPref line [' '] then (diffs, some (push .context line.tail))
              else if line.isEmpty ∧ ¬ hunkComplete lastHunk then (diffs, some (push .context []))
              else (diffs, some cur)

/-- Second pass of `ParseDiff`: `assignLineNumbers` walks a hunk's lines
with two running counters seeded at `OldStart`/`NewStart`. -/
def assignLines (oldNo newNo : Nat) : List Line → List Line
  | [] => []
  | l :: ls =>
    match l.typ with
    | .context =>
      { l with OldLineNo := oldNo, NewLineNo := newNo } :: assignLines (oldNo + 1) (newNo + 1) ls
    | .added =>
      { l with NewLineNo := newNo } :: assignLines oldNo (newNo + 1) ls
    | .removed =>
      { l with OldLineNo := oldNo } :: assignLines (oldNo + 1) newNo ls

/-- `assignLineNumbers` from parse.go. -/
def assignLineNumbers (h : Hunk) : Hunk :=
  { h with Lines := assignLines h.OldStart h.NewStart h.Lines }

/-- First pass of `ParseDiff`: scan all lines, then flush `current`. -/
def parseDiffRaw (lines : List (List Char)) : List FileDiff :=
  let (diffs, current) := lines.foldl parseStep ([], none)
  diffs ++ current.toList

/-- `ParseDiff` from internal/git/parse.go. The Go function returns
`([]FileDiff, error)`; every return site yields a `nil` error, embedded
here as the second component being `none`. -/
def ParseDiff (raw : String) : List FileDiff × Option String :=
  if raw = "" then ([], none)
  else
    let diffs := parseDiffRaw (splitLines raw.toList)
    (diffs.map (fun fd => { fd with Hunks := fd.Hunks.map assignLineNumbers }), none)

/-! ## ParseNameStatus (internal/git/parse.go) -/

/-- `strings.TrimSpace` restricted to ASCII whitespace (sufficient for the
name-status lines the tool feeds it). -/
def trimSpace (cs : List Char) : List Char :=
  (cs.dropWhile Char.isWhitespace).reverse.dropWhile Char.isWhitespace |>.reverse

/-- `strings.SplitN line "\t" 2`. -/
def splitTab2 (cs : List Char) : List (List Char) :=
  go cs []
where
  go : List Char → List Char → List (List Char)
    | [], acc => [acc.reverse]
    | c :: rest, acc => if c = '\t' then [acc.reverse, rest] else go rest (c :: acc)

/-- `ParseNameStatus` from internal/git/parse.go. -/
def ParseNameStatus (raw : String) : List ChangedFile :=
  if raw = "" then []
  else
    (splitLines raw.toList).foldl
      (fun files line =>
        let line := trimSpace line
        if line.isEmpty then files
        else
          match splitTab2 line with
          | [st, path] => files ++ [{ Status := st, Path := path }]
          | _ => files)
      []

/-! ## BuildSideBySidePairs (internal/ui/sidebyside.go) -/

/-- `LinePair` from internal/ui/sidebyside.go: the Go fields are `*git.Line`
pointers, `nil` embedded as `none`. -/
structure LinePair where
  Left : Option Line := none
  Right : Option Line := none
deriving DecidableEq, Repr, Inhabited

/-- The scan loop of `BuildSideBySidePairs`, carrying the pending queue of
unmatched removed lines. -/
def buildPairs : List Line → List Line → List LinePair
  | removed, [] => removed.map (fun r => { Left := some r })
  | removed, l :: ls =>
    match l.typ with
    | .removed => buildPairs (removed ++ [l]) ls
    | .added =>
      match removed with
      | r :: rest => { Left := some r, Right := some l } :: buildPairs rest ls
      | [] => { Right := some l } :: buildPairs [] ls
    | .context =>
      (removed.map (fun r => ({ Left := some r } : LinePair))) ++
        ({ Left := some l, Right := some l } :: buildPairs [] ls)

/-- `BuildSideBySidePairs` from internal/ui/sidebyside.go. -/
def BuildSideBySidePairs (lines : List Line) : List LinePair :=
  buildPairs [] lines

/-! ## DiffViewer (internal/ui/diffview.go) -/

/-- `diffLine` from diffview.go: a flattened display row. The Go `line`
field is a `*git.Line`, `nil` for hunk-header rows. -/
structure diffLine where
  isHunkHeader : Bool := false
  hunkHeader : List Char := []
  line : Option Line := none
deriving DecidableEq, Repr, Inhabited

/-- The zero `rune` used by diffview.go as the "no pending bracket"
sentinel. -/
def zeroRune : Char := Char.ofNat 0

/-- `DiffViewer` from diffview.go. `commentLines` is a Go `map[int]bool`;
lookup of an absent key yields `false`, so it is embedded as a total
function. Cursor, offset and sizes are Go `int`s, embedded as `Int`. -/
structure DiffViewer where
  diff : Option FileDiff := none
  lines : List diffLine := []
  cursor : Int := 0
  offset : Int := 0
  width : Int := 0
  height : Int := 0
  focused : Bool := false
  commentLines : Int → Bool := fun _ => false
  visualMode : Bool := false
  visualStart : Int := 0
  sideBySide : Bool := false
  searchTerm : List Char := []
  searchMatches : List Int := []
  searchIdx : Int := 0
  pendingBracket : Char := zeroRune
  preBracketCursor : Int := 0

/-- `navigateFileMsg` from diffview.go. -/
structure navigateFileMsg where
  direction : Int
deriving DecidableEq, Repr

/-- `flattenLines` from diffview.go: one hunk-header row per hunk followed
by one code row per line. -/
def flattenLines (dv : DiffViewer) : List diffLine :=
  match dv.diff with
  | none => []
  | some fd =>
    fd.Hunks.foldl
      (fun acc h =>
        acc ++ ({ isHunkHeader := true, hunkHeader := h.Header } : diffLine) ::
          h.Lines.map (fun l => ({ line := some l } : diffLine)))
      []

/-- `SetDiff` from diffview.go. -/
def SetDiff (dv : DiffViewer) (fd : Option FileDiff) : DiffViewer :=
  let dv := { dv with diff := fd, cursor := 0, offset := 0 }
  { dv with lines := flattenLines dv }

/-- `adjustScroll` from diffview.go: the two clamping steps run in
sequence on the current state. -/
def adjustScroll (dv : DiffViewer) : DiffViewer :=
  let dv := if dv.cursor < dv.offset then { dv with offset := dv.cursor } else dv
  if dv.offset + dv.height ≤ dv.cursor then { dv with offset := dv.cursor - dv.height + 1 }
  else dv

/-- The default `diffLine` used to totalise index accesses that are
in-range in every state the theorems quantify over (Go would panic on an
out-of-range index; no such index is reachable under the stated
hypotheses). -/
def dlDefault : diffLine := {}

/-- `isChangedLine` from diffview.go, totalised over `Int` indices. -/
def isChangedLine (lines : List diffLine) (i : Int) : Bool :=
  if i < 0 then false
  else
    match (lines.getD i.toNat dlDefault).line with
    | some l => l.typ = .added ∨ l.typ = .removed
    | none => false

/-- The upward scan of `jumpToNextHunk`: first index `≥ i` whose row is a
hunk header. The fuel argument bounds the iteration count and is seeded
so that it can never run out before the loop condition fails. -/
def findHeaderFromAux (lines : List diffLine) : Nat → Nat → Option Nat
  | 0, _ => none
  | fuel + 1, i =>
    if h : i < lines.length then
      if (lines.get ⟨i, h⟩).isHunkHeader then some i
      else findHeaderFromAux lines fuel (i + 1)
    else none

/-- The `for i := cursor+1; i < len; i++` scan of `jumpToNextHunk`. -/
def findHeaderFrom (lines : List diffLine) (i : Nat) : Option Nat :=
  findHeaderFromAux lines (lines.length - i) i

/-- The downward scan of `jumpToPrevHunk`: greatest index `≤ i` (and
`≥ 0`) whose row is a hunk header. -/
def findHeaderBackAux (lines : List diffLine) : Nat → Int → Option Int
  | 0, _ => none
  | fuel + 1, i =>
    if 0 ≤ i then
      if (lines.getD i.toNat dlDefault).isHunkHeader then some i
      else findHeaderBackAux lines fuel (i - 1)
    else none

/-- The `for i := cursor-1; i >= 0; i--` scan of `jumpToPrevHunk`. -/
def findHeaderBack (lines : List diffLine) (i : Int) : Option Int :=
  findHeaderBackAux lines (i + 1).toNat i

/-- `jumpToNextHunk` from diffview.go; returns the updated viewer and the
Go function's boolean result. -/
def jumpToNextHunk (dv : DiffViewer) : DiffViewer × Bool :=
  match findHeaderFrom dv.lines (dv.cursor + 1).toNat with
  | some i => (adjustScroll { dv with cursor := (i : Int) }, true)
  | none => (dv, false)

/-- `jumpToPrevHunk` from diffview.go. -/
def jumpToPrevHunk (dv : DiffViewer) : DiffViewer × Bool :=
  match findHeaderBack dv.lines (dv.cursor - 1) with
  | some i => (adjustScroll { dv with cursor := i }, true)
  | none => (dv, false)

/-- First loop of `jumpToNextChange`: skip forward past changed lines. -/
def skipChangedFromAux (lines : List diffLine) : Nat → Int → Int
  | 0, i => i
  | fuel + 1, i =>
    if i < (lines.length : Int) ∧ isChangedLine lines i then
      skipChangedFromAux lines fuel (i + 1)
    else i

/-- The `for i < len && isChangedLine(i)` loop of `jumpToNextChange`. -/
def skipChangedFrom (lines : List diffLine) (i : Int) : Int :=
  skipChangedFromAux lines ((lines.length : Int) - i).toNat i

/-- Second loop of `jumpToNextChange`: skip forward past non-changed
lines. -/
def skipUnchangedFromAux (lines : List diffLine) : Nat → Int → Int
  | 0, i => i
  | fuel + 1, i =>
    if i < (lines.length : Int) ∧ ¬ isChangedLine lines i then
      skipUnchangedFromAux lines fuel (i + 1)
    else i

/-- The `for i < len && !isChangedLine(i)` loop of `jumpToNextChange`. -/
def skipUnchangedFrom (lines : List diffLine) (i : Int) : Int :=
  skipUnchangedFromAux lines ((lines.length : Int) - i).toNat i

/-- `jumpToNextChange` from diffview.go. -/
def jumpToNextChange (dv : DiffViewer) : DiffViewer × Bool :=
  let i := skipUnchangedFrom dv.lines (skipChangedFrom dv.lines dv.cursor)
  if i < (dv.lines.length : Int) then (adjustScroll { dv with cursor := i }, true)
  else (dv, false)

/-- Middle loop of `jumpToPrevChange`: skip backward past non-changed
lines. -/
def skipUnchangedBackAux (lines : List diffLine) : Nat → Int → Int
  | 0, i => i
  | fuel + 1, i =>
    if 0 ≤ i ∧ ¬ isChangedLine lines i then skipUnchangedBackAux lines fuel (i - 1)
    else i

/-- The `for i >= 0 && !isChangedLine(i)` loop of `jumpToPrevChange`. -/
def skipUnchangedBack (lines : List diffLine) (i : Int) : Int :=
  skipUnchangedBackAux lines (i + 1).toNat i

/-- Final loop of `jumpToPrevChange`: walk back to the start of the
change block ending at `i`. -/
def skipToBlockStartAux (lines : List diffLine) : Nat → Int → Int
  | 0, i => i
  | fuel + 1, i =>
    if 0 < i ∧ isChangedLine lines (i - 1) then skipToBlockStartAux lines fuel (i - 1)
    else i

/-- The `for i > 0 && isChangedLine(i-1)` loop of `jumpToPrevChange`. -/
def skipToBlockStart (lines : List diffLine) (i : Int) : Int :=
  skipToBlockStartAux lines i.toNat i

/-- `jumpToPrevChange` from diffview.go. -/
def jumpToPrevChange (dv : DiffViewer) : DiffViewer × Bool :=
  let i := dv.cursor
  let i := if 0 < i ∧ isChangedLine dv.lines i then i - 1 else i
  let i := skipToBlockStart dv.lines (skipUnchangedBack dv.lines i)
  if 0 ≤ i ∧ isChangedLine dv.lines i then (adjustScroll { dv with cursor := i }, true)
  else (dv, false)

/-- The scan loop of `jumpToNextSearch`: first element of the match list
strictly greater than the cursor. -/
def firstMatchAfter (cursor : Int) : List Int → Option Int
  | [] => none
  | idx :: rest => if cursor < idx then some idx else firstMatchAfter cursor rest

/-- The scan loop of `jumpToPrevSearch`, which walks the match list from
the end: last element strictly less than the cursor. -/
def firstMatchBefore (cursor : Int) : List Int → Option Int
  | [] => none
  | idx :: rest =>
    match firstMatchBefore cursor rest with
    | some j => some j
    | none => if idx < cursor then some idx else none

/-- `jumpToNextSearch` from diffview.go. -/
def jumpToNextSearch (dv : DiffViewer) : DiffViewer :=
  match dv.searchMatches with
  | [] => dv
  | m :: ms =>
    match firstMatchAfter dv.cursor (m :: ms) with
    | some idx => adjustScroll { dv with cursor := idx }
    | none => adjustScroll { dv with cursor := m }

/-- `jumpToPrevSearch` from diffview.go. -/
def jumpToPrevSearch (dv : DiffViewer) : DiffViewer :=
  match dv.searchMatches with
  | [] => dv
  | m :: ms =>
    match firstMatchBefore dv.cursor (m :: ms) with
    | some idx => adjustScroll { dv with cursor := idx }
    | none => adjustScroll { dv with cursor := (m :: ms).getLast (List.cons_ne_nil m ms) }

/-- The scan loop of `jumpToNextComment` (`map[int]bool` lookups only, so
negative indices are harmless exactly as in Go). -/
def findCommentFromAux (cl : Int → Bool) (len : Int) : Nat → Int → Option Int
  | 0, _ => none
  | fuel + 1, i =>
    if i < len then
      if cl i then some i else findCommentFromAux cl len fuel (i + 1)
    else none

/-- The `for i := cursor+1; i < len; i++` loop of `jumpToNextComment`. -/
def findCommentFrom (cl : Int → Bool) (len : Int) (i : Int) : Option Int :=
  findCommentFromAux cl len (len - i).toNat i

/-- The scan loop of `jumpToPrevComment`. -/
def findCommentBackAux (cl : Int → Bool) : Nat → Int → Option Int
  | 0, _ => none
  | fuel + 1, i =>
    if 0 ≤ i then
      if cl i then some i else findCommentBackAux cl fuel (i - 1)
    else none

/-- The `for i := cursor-1; i >= 0; i--` loop of `jumpToPrevComment`. -/
def findCommentBack (cl : Int → Bool) (i : Int) : Option Int :=
  findCommentBackAux cl (i + 1).toNat i

/-- `jumpToNextComment` from diffview.go. -/
def jumpToNextComment (dv : DiffViewer) : DiffViewer :=
  match findCommentFrom dv.commentLines (dv.lines.length : Int) (dv.cursor + 1) with
  | some i => adjustScroll { dv with cursor := i }
  | none => dv

/-- `jumpToPrevComment` from diffview.go. -/
def jumpToPrevComment (dv : DiffViewer) : DiffViewer :=
  match findCommentBack dv.commentLines (dv.cursor - 1) with
  | some i => adjustScroll { dv with cursor := i }
  | none => dv

/-- Go `/` on int: truncated division. -/
def goDiv (a b : Int) : Int := Int.tdiv a b

/-- The main key switch of `DiffViewer.Update` (diffview.go), after the
pending-bracket pre-step has been handled. -/
def updateKey (dv : DiffViewer) (key : String) : DiffViewer × Option navigateFileMsg :=
  if key = "j" ∨ key = "down" then
    (if dv.cursor < (dv.lines.length : Int) - 1 then adjustScroll { dv with cursor := dv.cursor + 1 }
     else dv, none)
  else if key = "k" ∨ key = "up" then
    (if 0 < dv.cursor then adjustScroll { dv with cursor := dv.cursor - 1 } else dv, none)
  else if key = "G" then
    (adjustScroll { dv with cursor := (dv.lines.length : Int) - 1 }, none)
  else if key = "g" then
    ({ dv with cursor := 0, offset := 0 }, none)
  else if key = "ctrl+d" then
    let c := dv.cursor + goDiv dv.height 2
    let c := if (dv.lines.length : Int) ≤ c then (dv.lines.length : Int) - 1 else c
    (adjustScroll { dv with cursor := c }, none)
  else if key = "ctrl+u" then
    let c := dv.cursor - goDiv dv.height 2
    let c := if c < 0 then 0 else c
    (adjustScroll { dv with cursor := c }, none)
  else if key = "ctrl+f" then
    let c := dv.cursor + dv.height
    let c := if (dv.lines.length : Int) ≤ c then (dv.lines.length : Int) - 1 else c
    (adjustScroll { dv with cursor := c }, none)
  else if key = "ctrl+b" then
    let c := dv.cursor - dv.height
    let c := if c < 0 then 0 else c
    (adjustScroll { dv with cursor := c }, none)
  else if key = "\x7d" then
    match jumpToNextHunk dv with
    | (dv', true) => (dv', none)
    | (dv', false) => (dv', some { direction := 1 })
  else if key = "\x7b" then
    match jumpToPrevHunk dv with
    | (dv', true) => (dv', none)
    | (dv', false) => (dv', some { direction := -1 })
  else if key = "v" then
    (if dv.visualMode then { dv with visualMode := false }
     else { dv with visualMode := true, visualStart := dv.cursor }, none)
  else if key = "esc" then
    ({ dv with visualMode := false }, none)
  else if key = "tab" then
    ({ dv with sideBySide := !dv.sideBySide }, none)
  else if key = "]" then
    let dv := { dv with preBracketCursor := dv.cursor }
    match jumpToNextChange dv with
    | (dv', true) => ({ dv' with pendingBracket := ']' }, none)
    | (dv', false) => ({ dv' with pendingBracket := ']' }, some { direction := 1 })
  else if key = "[" then
    let dv := { dv with preBracketCursor := dv.cursor }
    match jumpToPrevChange dv with
    | (dv', true) => ({ dv' with pendingBracket := '[' }, none)
    | (dv', false) => ({ dv' with pendingBracket := '[' }, some { direction := -1 })
  else if key = "n" then
    (jumpToNextSearch dv, none)
  else if key = "N" then
    (jumpToPrevSearch dv, none)
  else (dv, none)

/-- `DiffViewer.Update` from diffview.go, restricted to key messages (all
other message kinds leave the model unchanged). -/
def Update (dv : DiffViewer) (key : String) : DiffViewer × Option navigateFileMsg :=
  if dv.pendingBracket ≠ zeroRune then
    if key = "c" then
      let dv' := { dv with cursor := dv.preBracketCursor }
      let dv' :=
        if dv.pendingBracket = ']' then jumpToNextComment dv' else jumpToPrevComment dv'
      ({ dv' with pendingBracket := zeroRune }, none)
    else updateKey { dv with pendingBracket := zeroRune } key
  else updateKey dv key

/-- `CurrentLine` from diffview.go. -/
def CurrentLine (dv : DiffViewer) : Option Line :=
  if 0 ≤ dv.cursor ∧ dv.cursor < (dv.lines.length : Int) then
    (dv.lines.getD dv.cursor.toNat dlDefault).line
  else none

/-- `CurrentLineNo` from diffview.go: new line number for added/context
lines, old line number for removed lines, `0` off a code row. -/
def CurrentLineNo (dv : DiffViewer) : Nat :=
  match CurrentLine dv with
  | none => 0
  | some l => if l.typ = .removed then l.OldLineNo else l.NewLineNo

/-- `TotalLines` from diffview.go. -/
def TotalLines (dv : DiffViewer) : Nat := dv.lines.length

/-- `VisualRange` from diffview.go. -/
def VisualRange (dv : DiffViewer) : Int × Int :=
  if dv.visualStart > dv.cursor then (dv.cursor, dv.visualStart)
  else (dv.visualStart, dv.cursor)

/-- `strings.Contains s term` on character lists. -/
def containsSub : List Char → List Char → Bool
  | s, term =>
    if hasPref s term then true
    else
      match s with
      | [] => false
      | _ :: rest => containsSub rest term

/-- `SetSearch` from diffview.go: the ordered list of row indices whose
code line's content contains the term. -/
def SetSearch (dv : DiffViewer) (term : List Char) : DiffViewer :=
  let dv := { dv with searchTerm := term, searchMatches := [], searchIdx := 0 }
  if term.isEmpty then dv
  else
    { dv with searchMatches :=
        ((List.range dv.lines.length).filter (fun i =>
          match (dv.lines.getD i dlDefault).line with
          | some l => containsSub l.Content term
          | none => false)).map (fun i => (i : Int)) }

/-! ## Specification-side measures -/

/-- A line contributing to the old side of a hunk (context or removed). -/
def oldSide (l : Line) : Bool := l.typ == .context || l.typ == .removed

/-- A line contributing to the new side of a hunk (context or added). -/
def newSide (l : Line) : Bool := l.typ == .context || l.typ == .added

/-- Validity of a parsed hunk header, as produced from well-formed
unified-diff text: a side whose start is `0` (git's encoding for "no
lines on this side", e.g. `@@ -0,0 +1,3 @@` for a new file) carries no
lines of that side. -/
def validHunk (h : Hunk) : Prop :=
  (h.Lines.any oldSide → 1 ≤ h.OldStart) ∧ (h.Lines.any newSide → 1 ≤ h.NewStart)

instance (h : Hunk) : Decidable (validHunk h) := by
  unfold validHunk; infer_instance

/-- The lines occupying `Left` slots of a pair list, in order. -/
def leftsOf (ps : List LinePair) : List Line := ps.filterMap (·.Left)

/-- The lines occupying `Right` slots of a pair list, in order. -/
def rightsOf (ps : List LinePair) : List Line := ps.filterMap (·.Right)

/-- Total number of present (non-`nil`) `Left` and `Right` slots. -/
def presentCount (ps : List LinePair) : Nat :=
  (leftsOf ps).length + (rightsOf ps).length

/-- The scroll invariant of the viewer: the cursor row lies inside the
viewport `[offset, offset + height)`. -/
def cursorVisible (dv : DiffViewer) : Prop :=
  dv.offset ≤ dv.cursor ∧ dv.cursor < dv.offset + dv.height

/-- The cursor addresses an existing row. -/
def cursorInRange (dv : DiffViewer) : Prop :=
  0 ≤ dv.cursor ∧ dv.cursor < (dv.lines.length : Int)

instance (dv : DiffViewer) : Decidable (cursorVisible dv) := by
  unfold cursorVisible; infer_instance

instance (dv : DiffViewer) : Decidable (cursorInRange dv) := by
  unfold cursorInRange; infer_instance

/-- The navigation bookkeeping invariant relative to a fixed row list:
the rows are unchanged, the cursor addresses a row, and the recorded
pre-bracket cursor addresses a row. -/
def navOK (base : List diffLine) (dv : DiffViewer) : Prop :=
  dv.lines = base ∧ cursorInRange dv ∧
  0 ≤ dv.preBracketCursor ∧ dv.preBracketCursor < (base.length : Int)

instance (base : List diffLine) (dv : DiffViewer) : Decidable (navOK base dv) := by
  unfold navOK; infer_instance

/-! ## Concrete states used by witnesses and counterexamples -/

/-- A complete raw diff: `diff --git` preamble plus the spec's example
hunk. -/
def rawExample : String :=
  "diff --git a/main.go b/main.go\n@@ -1,3 +1,4 @@\n context\n-old\n+new1\n+new2\n ctx2\n"

/-- A hunk that still has budget left (`1,3 → 1,4` with only two lines
consumed), used to exercise the blank-line rule. -/
def hunkOpen : Hunk :=
  { OldStart := 1, OldCount := 3, NewStart := 1, NewCount := 4,
    Header := "@@ -1,3 +1,4 @@".toList,
    Lines := [{ Content := "a".toList, typ := .context },
              { Content := "b".toList, typ := .added }] }

/-- A file diff whose last hunk is `hunkOpen`. -/
def fdOpen : FileDiff := { Path := "main.go".toList, Hunks := [hunkOpen] }

/-- A single context line, used as input to the pairer. -/
def ctxLine : Line := { Content := "x".toList, typ := .context, OldLineNo := 1, NewLineNo := 1 }

/-- A removed line for pairer runs. -/
def remLine (n : Nat) : Line := { Content := [], typ := .removed, OldLineNo := n }

/-- An added line for pairer runs. -/
def addLine (n : Nat) : Line := { Content := [], typ := .added, NewLineNo := n }

/-- A viewer over nine plain code rows, scrolled to the bottom of a
three-row viewport, with a pending `]` whose pre-bracket cursor was at the
top. Reachable by pressing `]` at row 0 (the jump landed at row 8). -/
def dvPending : DiffViewer :=
  { lines := List.replicate 9 { line := some ctxLine },
    cursor := 8, offset := 6, height := 3,
    pendingBracket := ']', preBracketCursor := 0 }

/-- A viewer with no rows (what `SetDiff nil` produces). -/
def dvEmpty : DiffViewer := { height := 24 }

/-- Like `dvPending`, but with an annotation marker on row 4, so the
pending-`c` continuation has an annotated row to land on. -/
def dvAnnotated : DiffViewer :=
  { lines := List.replicate 9 { line := some ctxLine },
    cursor := 8, offset := 6, height := 3,
    commentLines := fun i => i == 4,
    pendingBracket := ']', preBracketCursor := 0 }

/-- A viewer over five code rows with a small viewport, used to witness
the navigation invariants. -/
def dvFive : DiffViewer :=
  { lines := List.replicate 5 { line := some ctxLine },
    cursor := 2, offset := 1, height := 3, searchMatches := [0, 3] }

/-- A viewer whose search matches are `[2, 5, 9]` and cursor is at `9`,
the spec's wrap-around example. -/
def dvSearch : DiffViewer :=
  { lines := List.replicate 10 { line := some ctxLine },
    cursor := 9, offset := 0, height := 24, searchMatches := [2, 5, 9] }

/-! # Theorems -/

/-- **C10**: `SetDiff` with an absent (`nil`) `FileDiff` is accepted: it
stores an empty row sequence (`TotalLines` returns 0), resets cursor and
scroll offset to 0, and afterwards `CurrentLine` returns `nil` and
`CurrentLineNo` returns 0. -/
theorem setDiff_nil_resets (dv : DiffViewer) :
    (SetDiff dv none).lines = [] ∧
    TotalLines (SetDiff dv none) = 0 ∧
    (SetDiff dv none).cursor = 0 ∧
    (SetDiff dv none).offset = 0 ∧
    CurrentLine (SetDiff dv none) = none ∧
    CurrentLineNo (SetDiff dv none) = 0 := by
  refine ⟨rfl, rfl, rfl, rfl, ?_, ?_⟩ <;>
    simp [CurrentLine, CurrentLineNo, SetDiff, flattenLines, TotalLines]

/-- **C2 (counterexample)**: on input containing a structurally invalid
hunk header (`@@ malformed @@`), `ParseDiff` does **not** fail: it returns
a `nil` error together with a `FileDiff` for path `f` whose malformed
hunk was silently dropped. -/
theorem parseDiff_malformed_no_error :
    (ParseDiff "diff --git a/f b/f\n@@ malformed @@\n+x").2 = none ∧
    (ParseDiff "diff --git a/f b/f\n@@ malformed @@\n+x").1 =
      [{ Path := "f".toList, Status := [], Hunks := [] }] := by
  constructor <;> decide

/-- **C2 (amended)**: `ParseDiff` never returns an error, on any input
whatsoever; structurally invalid hunk-header lines are skipped as noise,
never reported. -/
theorem parseDiff_never_fails (raw : String) : (ParseDiff raw).2 = none := by
  unfold ParseDiff
  split <;> rfl

/-- **C3**: during `ParseDiff`, a bare empty input line inside a hunk is
appended to the (last) hunk as a blank context line exactly when the hunk
has not yet consumed its declared `OldCount`/`NewCount` budget
(`hunkComplete` is false), and is discarded otherwise; moreover empty
input yields an empty sequence of `FileDiff`s and no error. -/
theorem emptyLine_blank_context :
    (∀ (diffs : List FileDiff) (cur : FileDiff) (lastHunk : Hunk),
      cur.Hunks.getLast? = some lastHunk →
      parseStep (diffs, some cur) [] =
        (if hunkComplete lastHunk then (diffs, some cur)
         else (diffs, some { cur with
           Hunks := appendLineToLast cur.Hunks { Content := [], typ := .context } }))) ∧
    ParseDiff "" = ([], none) := by
  refine ⟨?_, rfl⟩
  intro diffs cur lastHunk hlast
  simp only [parseStep,
    show matchDiffHeader [] = none from rfl,
    show isSkipHeader [] = false from by decide,
    show matchHunkHeader [] = none from rfl,
    show hasPref [] ['\\', ' '] = false from rfl,
    show hasPref [] ['+'] = false from rfl,
    show hasPref [] ['-'] = false from rfl,
    show hasPref [] [' '] = false from rfl,
    List.isEmpty_nil, hlast]
  by_cases hc : hunkComplete lastHunk <;> simp [hc]

/-- Witness for **C3**: the blank-line rule applied at a concrete open
hunk (budget not yet consumed), so the blank context line is appended. -/
theorem emptyLine_blank_context_witness :
    fdOpen.Hunks.getLast? = some hunkOpen ∧
    parseStep ([], some fdOpen) [] =
      (if hunkComplete hunkOpen then ([], some fdOpen)
       else ([], some { fdOpen with
         Hunks := appendLineToLast fdOpen.Hunks { Content := [], typ := .context } })) :=
  ⟨by decide, emptyLine_blank_context.1 [] fdOpen hunkOpen (by decide)⟩

/-! ## C5: no `diff --git` preamble -/

/-- On a line that does not match the `diff --git` header, a state with no
in-progress file diff stays that way: every other branch of the scan loop
requires `current != nil`. -/
theorem parseStep_none_of_no_header (ds : List FileDiff) (line : List Char)
    (h : matchDiffHeader line = none) : parseStep (ds, none) line = (ds, none) := by
  simp only [parseStep, h]
  split
  · rfl
  · cases hm : matchHunkHeader line with
    | some v => simp [hm]
    | none => simp only [hm]; split <;> rfl

/-- Folding the scan over lines none of which is a `diff --git` header
keeps the initial empty state. -/
theorem foldl_parseStep_none (lines : List (List Char))
    (h : ∀ line ∈ lines, matchDiffHeader line = none) :
    lines.foldl parseStep ([], none) = ([], none) := by
  induction lines with
  | nil => rfl
  | cons l ls ih =>
    rw [List.foldl_cons, parseStep_none_of_no_header [] l (h l (by simp))]
    exact ih fun x hx => h x (List.mem_cons_of_mem _ hx)

/-- **C5 (counterexample)**: raw diff text with hunks and `+++ b/foo.go` /
`--- a/foo.go` lines but no `diff --git` preamble parses to the **empty**
sequence: the `+++`/`---` lines never supply a path and the whole input is
dropped. -/
theorem noPreamble_drops_input :
    (ParseDiff "--- a/foo.go\n+++ b/foo.go\n@@ -1 +1 @@\n-a\n+b").1 = [] := by
  decide

/-- **C5 (amended)**: `+++ b/<path>` / `--- a/<path>` lines are skipped as
structural noise and never supply a `FileDiff` path; when no line of the
input matches the `diff --git` header, `ParseDiff` returns the empty
sequence (hunks present in the input are dropped, not attached to a
path). -/
theorem noPreamble_yields_nothing (raw : String)
    (h : ∀ line ∈ splitLines raw.toList, matchDiffHeader line = none) :
    (ParseDiff raw).1 = [] := by
  have hf := foldl_parseStep_none _ h
  unfold ParseDiff
  split
  · rfl
  · simp only [parseDiffRaw, String.toList] at hf ⊢
    rw [hf]
    rfl

/-- Witness for **C5 (amended)** at a concrete preamble-less input. -/
theorem noPreamble_yields_nothing_witness :
    (∀ line ∈ splitLines ("+++ b/x\n@@ -1 +1 @@\n-a").toList, matchDiffHeader line = none) ∧
    (ParseDiff "+++ b/x\n@@ -1 +1 @@\n-a").1 = [] :=
  ⟨by decide, noPreamble_yields_nothing "+++ b/x\n@@ -1 +1 @@\n-a" (by decide)⟩

/-! ## C4: side-by-side pairing -/

/-- `leftsOf` unfolded to a `filterMap`. -/
theorem leftsOf_def (ps : List LinePair) : leftsOf ps = ps.filterMap LinePair.Left := rfl

/-- `rightsOf` unfolded to a `filterMap`. -/
theorem rightsOf_def (ps : List LinePair) : rightsOf ps = ps.filterMap LinePair.Right := rfl

/-- Flushing the pending queue contributes each queued line as a left
slot. -/
theorem filterMap_left_flush (q : List Line) :
    List.filterMap (LinePair.Left ∘ fun r => ({ Left := some r } : LinePair)) q = q := by
  induction q with
  | nil => rfl
  | cons r rs ih => simp [List.filterMap_cons, ih]

/-- Flushing the pending queue contributes no right slots. -/
theorem filterMap_right_flush (q : List Line) :
    List.filterMap (LinePair.Right ∘ fun r => ({ Left := some r } : LinePair)) q = [] := by
  induction q with
  | nil => rfl
  | cons r rs ih => simp [List.filterMap_cons, ih]

/-- Every pair built by zipping two lines is fully present. -/
theorem zip_pair_present {q as : List Line} {p : LinePair}
    (hp : p ∈ List.zipWith (fun r a => ({ Left := some r, Right := some a } : LinePair)) q as) :
    p.Left.isSome ∧ p.Right.isSome := by
  induction q generalizing as with
  | nil => simp at hp
  | cons r rs ih =>
    cases as with
    | nil => simp at hp
    | cons a as2 =>
      rw [List.zipWith_cons_cons] at hp
      rcases List.mem_cons.mp hp with h | h
      · subst h; exact ⟨rfl, rfl⟩
      · exact ih h

/-- Left slots of the pairer output: the pending queue is flushed first,
followed by exactly the non-added input lines in input order. -/
theorem leftsOf_buildPairs (ls : List Line) :
    ∀ q, leftsOf (buildPairs q ls) = q ++ ls.filter oldSide := by
  simp only [leftsOf_def]
  induction ls with
  | nil =>
    intro q
    simp [buildPairs, filterMap_left_flush]
  | cons l ls ih =>
    intro q
    cases hl : l.typ with
    | removed =>
      simp [buildPairs, hl, ih, List.filter_cons, oldSide]
    | added =>
      cases q with
      | nil => simp [buildPairs, hl, ih, List.filterMap_cons, List.filter_cons, oldSide]
      | cons r rest => simp [buildPairs, hl, ih, List.filterMap_cons, List.filter_cons, oldSide]
    | context =>
      simp [buildPairs, hl, ih, List.filterMap_append, List.filterMap_cons,
        filterMap_left_flush, List.filter_cons, oldSide]

/-- Right slots of the pairer output: exactly the non-removed input lines
in input order (the queue contributes no right slots). -/
theorem rightsOf_buildPairs (ls : List Line) :
    ∀ q, rightsOf (buildPairs q ls) = ls.filter newSide := by
  simp only [rightsOf_def]
  induction ls with
  | nil =>
    intro q
    simp [buildPairs, filterMap_right_flush]
  | cons l ls ih =>
    intro q
    cases hl : l.typ with
    | removed =>
      simp [buildPairs, hl, ih, List.filter_cons, newSide]
    | added =>
      cases q with
      | nil => simp [buildPairs, hl, ih, List.filterMap_cons, List.filter_cons, newSide]
      | cons r rest => simp [buildPairs, hl, ih, List.filterMap_cons, List.filter_cons, newSide]
    | context =>
      simp [buildPairs, hl, ih, List.filterMap_append, List.filterMap_cons,
        filterMap_right_flush, List.filter_cons, newSide]

/-- Counting both side filters yields the input length plus one extra per
context line. -/
theorem filter_sides_length (ls : List Line) :
    (ls.filter oldSide).length + (ls.filter newSide).length
      = ls.length + (ls.filter (fun l => l.typ == .context)).length := by
  induction ls with
  | nil => rfl
  | cons l ls ih =>
    cases hl : l.typ <;>
      simp [List.filter_cons, oldSide, newSide, hl] <;> omega

/-- A run of removed lines only grows the pending queue. -/
theorem buildPairs_removed_run (rs : List Line) (hr : ∀ l ∈ rs, l.typ = .removed) :
    ∀ q ls, buildPairs q (rs ++ ls) = buildPairs (q ++ rs) ls := by
  induction rs with
  | nil => simp
  | cons r rs ih =>
    intro q ls
    have hrt : r.typ = .removed := hr r (by simp)
    rw [List.cons_append]
    show buildPairs q (r :: (rs ++ ls)) = _
    rw [show buildPairs q (r :: (rs ++ ls)) = buildPairs (q ++ [r]) (rs ++ ls) by
      simp [buildPairs, hrt]]
    rw [ih (fun l hl => hr l (by simp [hl])) (q ++ [r]) ls]
    simp

/-- Draining an equal-length queue against a run of added lines pairs
them off one by one. -/
theorem buildPairs_drain (as : List Line) :
    ∀ q, (∀ l ∈ as, l.typ = .added) → q.length = as.length →
      buildPairs q as =
        List.zipWith (fun r a => ({ Left := some r, Right := some a } : LinePair)) q as := by
  induction as with
  | nil =>
    intro q _ hlen
    rw [List.length_nil] at hlen
    rw [List.eq_nil_of_length_eq_zero hlen]
    rfl
  | cons a as ih =>
    intro q ha hlen
    have hat : a.typ = .added := ha a (by simp)
    cases q with
    | nil => simp at hlen
    | cons r rest =>
      simp only [List.length_cons, Nat.succ_inj] at hlen
      simp [buildPairs, hat, ih rest (fun l hl => ha l (by simp [hl])) hlen]

/-- **C4 (counterexample)**: a single context input line produces one pair
with **both** slots present, so the total number of present slots is `2`,
not the input length `1` — the claimed count identity fails on any input
containing a context line. -/
theorem pairer_count_cex :
    BuildSideBySidePairs [ctxLine] =
      [{ Left := some ctxLine, Right := some ctxLine }] ∧
    presentCount (BuildSideBySidePairs [ctxLine]) = 2 ∧
    ([ctxLine] : List Line).length = 1 := by
  decide

/-- **C4 (amended)**: `BuildSideBySidePairs` is order-preserving and
total, with the count corrected for context lines: present slots number
`len(input) + #context` (a context line occupies both sides of its pair);
the left slots are exactly the non-added input lines in input order and
the right slots exactly the non-removed input lines in input order (so
every input line appears in exactly one pair, in order); and a run of `n`
removed lines followed by `n` added lines yields exactly `n` pairs, each
with both slots present. -/
theorem pairer_order_total (lines : List Line) :
    presentCount (BuildSideBySidePairs lines)
      = lines.length + (lines.filter (fun l => l.typ == .context)).length ∧
    leftsOf (BuildSideBySidePairs lines) = lines.filter oldSide ∧
    rightsOf (BuildSideBySidePairs lines) = lines.filter newSide ∧
    (∀ rs as, (∀ l ∈ rs, l.typ = .removed) → (∀ l ∈ as, l.typ = .added) →
      rs.length = as.length →
      (BuildSideBySidePairs (rs ++ as)).length = rs.length ∧
      ∀ p ∈ BuildSideBySidePairs (rs ++ as), p.Left.isSome ∧ p.Right.isSome) := by
  refine ⟨?_, leftsOf_buildPairs lines [], rightsOf_buildPairs lines [], ?_⟩
  · unfold presentCount BuildSideBySidePairs
    rw [leftsOf_buildPairs lines [], rightsOf_buildPairs lines [], List.nil_append]
    exact filter_sides_length lines
  · intro rs as hr ha hlen
    have hz : BuildSideBySidePairs (rs ++ as) =
        List.zipWith (fun r a => ({ Left := some r, Right := some a } : LinePair)) rs as := by
      unfold BuildSideBySidePairs
      rw [buildPairs_removed_run rs hr [] as, List.nil_append]
      exact buildPairs_drain as rs ha hlen
    constructor
    · rw [hz, List.length_zipWith, hlen, Nat.min_self]
    · intro p hp
      rw [hz] at hp
      exact zip_pair_present hp

/-- Witness for **C4 (amended)**: the run clause instantiated with two
removed and two added lines. -/
theorem pairer_order_total_witness :
    (BuildSideBySidePairs [remLine 1, remLine 2, addLine 1, addLine 2]).length = 2 ∧
    ∀ p ∈ BuildSideBySidePairs [remLine 1, remLine 2, addLine 1, addLine 2],
      p.Left.isSome ∧ p.Right.isSome :=
  (pairer_order_total []).2.2.2 [remLine 1, remLine 2] [addLine 1, addLine 2]
    (by decide) (by decide) (by decide)

/-! ## Viewer helper lemmas -/

/-- `adjustScroll` touches only `offset`: the cursor is unchanged. -/
@[simp] theorem adjustScroll_cursor (dv : DiffViewer) :
    (adjustScroll dv).cursor = dv.cursor := by
  unfold adjustScroll
  dsimp only
  split <;> split <;> rfl

/-- `adjustScroll` leaves the height unchanged. -/
@[simp] theorem adjustScroll_height (dv : DiffViewer) :
    (adjustScroll dv).height = dv.height := by
  unfold adjustScroll
  dsimp only
  split <;> split <;> rfl

/-- `adjustScroll` leaves the rows unchanged. -/
@[simp] theorem adjustScroll_lines (dv : DiffViewer) :
    (adjustScroll dv).lines = dv.lines := by
  unfold adjustScroll
  dsimp only
  split <;> split <;> rfl

/-- `adjustScroll` leaves the pre-bracket cursor unchanged. -/
@[simp] theorem adjustScroll_preBracketCursor (dv : DiffViewer) :
    (adjustScroll dv).preBracketCursor = dv.preBracketCursor := by
  unfold adjustScroll
  dsimp only
  split <;> split <;> rfl

/-- `adjustScroll` leaves the pending bracket unchanged. -/
@[simp] theorem adjustScroll_pendingBracket (dv : DiffViewer) :
    (adjustScroll dv).pendingBracket = dv.pendingBracket := by
  unfold adjustScroll
  dsimp only
  split <;> split <;> rfl

/-- `adjustScroll` leaves the search matches unchanged. -/
@[simp] theorem adjustScroll_searchMatches (dv : DiffViewer) :
    (adjustScroll dv).searchMatches = dv.searchMatches := by
  unfold adjustScroll
  dsimp only
  split <;> split <;> rfl

/-! ## C7: search navigation -/

/-- The upward search scan is `find?` over the match list. -/
theorem firstMatchAfter_eq_find (c : Int) (ms : List Int) :
    firstMatchAfter c ms = ms.find? (fun i => decide (c < i)) := by
  induction ms with
  | nil => rfl
  | cons m ms ih =>
    by_cases h : c < m <;> simp [firstMatchAfter, List.find?_cons, h, ih]

/-- The downward search scan is `find?` over the reversed match list. -/
theorem firstMatchBefore_eq_find (c : Int) (ms : List Int) :
    firstMatchBefore c ms = ms.reverse.find? (fun i => decide (i < c)) := by
  induction ms with
  | nil => rfl
  | cons m ms ih =>
    simp only [firstMatchBefore, ih, List.reverse_cons, List.find?_append]
    rcases List.find? (fun i => decide (i < c)) ms.reverse with _ | j
    · by_cases h : m < c <;> simp [List.find?_cons, h]
    · simp

/-- **C7**: `SearchNext` moves the cursor to the first index in
`searchMatches` strictly greater than the cursor, wrapping to the first
match when none exists; `SearchPrev` symmetrically moves to the last
index strictly less than the cursor, wrapping to the last match; both are
no-ops when `searchMatches` is empty; and with matches `[2, 5, 9]` and
cursor `9`, `SearchNext` wraps the cursor to `2`. -/
theorem search_wrap (dv : DiffViewer) :
    (dv.searchMatches = [] → jumpToNextSearch dv = dv ∧ jumpToPrevSearch dv = dv) ∧
    (∀ m ms, dv.searchMatches = m :: ms →
      (jumpToNextSearch dv).cursor =
        ((m :: ms).find? (fun i => decide (dv.cursor < i))).getD m ∧
      (jumpToPrevSearch dv).cursor =
        ((m :: ms).reverse.find? (fun i => decide (i < dv.cursor))).getD
          ((m :: ms).getLast (List.cons_ne_nil m ms))) ∧
    (jumpToNextSearch dvSearch).cursor = 2 := by
  refine ⟨?_, ?_, by decide⟩
  · intro h
    constructor <;> simp [jumpToNextSearch, jumpToPrevSearch, h]
  · intro m ms h
    constructor
    · rw [← firstMatchAfter_eq_find]
      simp only [jumpToNextSearch, h]
      rcases hfa : firstMatchAfter dv.cursor (m :: ms) with _ | idx <;> simp [hfa]
    · rw [← firstMatchBefore_eq_find]
      simp only [jumpToPrevSearch, h]
      rcases hfb : firstMatchBefore dv.cursor (m :: ms) with _ | idx <;> simp [hfb]

/-- Witness for **C7** on a concrete viewer (matches `[0, 3]`, cursor 2):
`SearchNext` lands on 3, `SearchPrev` on 0. -/
theorem search_wrap_witness :
    (jumpToNextSearch dvFive).cursor = 3 ∧ (jumpToPrevSearch dvFive).cursor = 0 := by
  have h := (search_wrap dvFive).2.1 0 [3] (by rfl)
  exact ⟨h.1.trans (by decide), h.2.trans (by decide)⟩

/-! ## C8: bracket-prefixed two-key sequences -/

/-- **C8**: pressing `]` (resp. `[`) records the pre-bracket cursor and
performs the change-block jump, leaving the bracket pending; a following
`c` resolves comment navigation from the recorded pre-bracket position
(the next/previous annotated row strictly beyond it, staying put if none
exists) and clears the pending bracket; any following key other than `c`
clears the pending bracket and is processed as a normal key. -/
theorem bracket_pending (dv : DiffViewer) :
    (dv.pendingBracket = zeroRune →
      (Update dv "]").1 =
        { (jumpToNextChange { dv with preBracketCursor := dv.cursor }).1 with
            pendingBracket := ']' } ∧
      (Update dv "[").1 =
        { (jumpToPrevChange { dv with preBracketCursor := dv.cursor }).1 with
            pendingBracket := '[' }) ∧
    (dv.pendingBracket = ']' →
      (Update dv "c").1.cursor =
        (findCommentFrom dv.commentLines (dv.lines.length : Int)
          (dv.preBracketCursor + 1)).getD dv.preBracketCursor ∧
      (Update dv "c").1.pendingBracket = zeroRune) ∧
    (dv.pendingBracket = '[' →
      (Update dv "c").1.cursor =
        (findCommentBack dv.commentLines (dv.preBracketCursor - 1)).getD
          dv.preBracketCursor ∧
      (Update dv "c").1.pendingBracket = zeroRune) ∧
    (∀ key, dv.pendingBracket ≠ zeroRune → key ≠ "c" →
      Update dv key = Update { dv with pendingBracket := zeroRune } key) := by
  refine ⟨?_, ?_, ?_, ?_⟩
  · intro h
    have hcond : ¬ (dv.pendingBracket ≠ zeroRune) := by simp [h]
    constructor
    · simp only [Update, hcond, reduceIte, updateKey]
      norm_num
      rcases hj : jumpToNextChange { dv with preBracketCursor := dv.cursor } with ⟨dv', b⟩
      cases b <;> simp [hj]
    · simp only [Update, hcond, reduceIte, updateKey]
      norm_num
      rcases hj : jumpToPrevChange { dv with preBracketCursor := dv.cursor } with ⟨dv', b⟩
      cases b <;> simp [hj]
  · intro h
    have hne : dv.pendingBracket ≠ zeroRune := by rw [h]; decide
    simp only [Update, hne, reduceIte, h, jumpToNextComment, findCommentFrom]
    rcases hf : findCommentFromAux dv.commentLines (dv.lines.length : Int)
        ((dv.lines.length : Int) - (dv.preBracketCursor + 1)).toNat
        (dv.preBracketCursor + 1) with _ | i <;>
      simp [hf, show ¬ (']' = zeroRune) from by decide]
  · intro h
    have hne : dv.pendingBracket ≠ zeroRune := by rw [h]; decide
    have hnr : dv.pendingBracket ≠ ']' := by rw [h]; decide
    simp only [Update, hne, reduceIte, h, jumpToPrevComment, findCommentBack]
    rcases hf : findCommentBackAux dv.commentLines
        ((dv.preBracketCursor - 1) + 1).toNat (dv.preBracketCursor - 1) with _ | i <;>
      simp [hf, hnr, show ¬ ('[' = zeroRune) from by decide,
        show ¬ ('[' = ']') from by decide]
  · intro key hne hkey
    simp [Update, hne, hkey]

/-- Witness for **C8** on concrete viewers: `]` from `dvFive` records the
cursor and sets the pending bracket; `c` after `]` in `dvAnnotated` jumps
to the annotated row 4 computed from the pre-bracket position 0 (not from
the current cursor 8); and `j` with a pending bracket behaves like `j`
with the bracket cleared. -/
theorem bracket_pending_witness :
    (Update dvFive "]").1 =
      { (jumpToNextChange { dvFive with preBracketCursor := dvFive.cursor }).1 with
          pendingBracket := ']' } ∧
    (Update dvAnnotated "c").1.cursor = 4 ∧
    Update dvAnnotated "j" = Update { dvAnnotated with pendingBracket := zeroRune } "j" :=
  ⟨((bracket_pending dvFive).1 (by decide)).1,
   (((bracket_pending dvAnnotated).2.1 (by decide)).1).trans (by decide),
   (bracket_pending dvAnnotated).2.2.2 "j" (by decide) (by decide)⟩

/-! ## C6: scroll adjustment keeps the cursor visible -/

/-- With a positive viewport height, `adjustScroll` establishes the
visibility invariant from any starting offset: it scrolls up to the
cursor when the cursor is above the window and down to
`cursor - height + 1` when it is below, and otherwise leaves the offset
alone. -/
theorem adjustScroll_visible (dv : DiffViewer) (hh : 1 ≤ dv.height) :
    cursorVisible (adjustScroll dv) := by
  unfold cursorVisible adjustScroll
  dsimp only
  split <;> split <;> (try dsimp only) <;> omega

/-- A failed or successful header jump keeps the cursor visible. -/
theorem jumpToNextHunk_visible (dv : DiffViewer) (hh : 1 ≤ dv.height)
    (hv : cursorVisible dv) : cursorVisible (jumpToNextHunk dv).1 := by
  unfold jumpToNextHunk
  rcases hfind : findHeaderFrom dv.lines (dv.cursor + 1).toNat with _ | i <;>
    simp only [hfind]
  · exact hv
  · exact adjustScroll_visible _ hh

/-- A backward header jump keeps the cursor visible. -/
theorem jumpToPrevHunk_visible (dv : DiffViewer) (hh : 1 ≤ dv.height)
    (hv : cursorVisible dv) : cursorVisible (jumpToPrevHunk dv).1 := by
  unfold jumpToPrevHunk
  rcases hfind : findHeaderBack dv.lines (dv.cursor - 1) with _ | i <;>
    simp only [hfind]
  · exact hv
  · exact adjustScroll_visible _ hh

/-- A forward change-block jump keeps the cursor visible. -/
theorem jumpToNextChange_visible (dv : DiffViewer) (hh : 1 ≤ dv.height)
    (hv : cursorVisible dv) : cursorVisible (jumpToNextChange dv).1 := by
  unfold jumpToNextChange
  dsimp only
  split
  · exact adjustScroll_visible _ hh
  · exact hv

/-- A backward change-block jump keeps the cursor visible. -/
theorem jumpToPrevChange_visible (dv : DiffViewer) (hh : 1 ≤ dv.height)
    (hv : cursorVisible dv) : cursorVisible (jumpToPrevChange dv).1 := by
  unfold jumpToPrevChange
  dsimp only
  split <;> split <;> first
    | exact adjustScroll_visible _ hh
    | exact hv

/-- A forward search jump keeps the cursor visible. -/
theorem jumpToNextSearch_visible (dv : DiffViewer) (hh : 1 ≤ dv.height)
    (hv : cursorVisible dv) : cursorVisible (jumpToNextSearch dv) := by
  unfold jumpToNextSearch
  rcases hms : dv.searchMatches with _ | ⟨m, ms⟩ <;> dsimp only
  · exact hv
  · rcases hfa : firstMatchAfter dv.cursor (m :: ms) with _ | i <;> dsimp only <;>
      exact adjustScroll_visible _ hh

/-- A backward search jump keeps the cursor visible. -/
theorem jumpToPrevSearch_visible (dv : DiffViewer) (hh : 1 ≤ dv.height)
    (hv : cursorVisible dv) : cursorVisible (jumpToPrevSearch dv) := by
  unfold jumpToPrevSearch
  rcases hms : dv.searchMatches with _ | ⟨m, ms⟩ <;> dsimp only
  · exact hv
  · rcases hfb : firstMatchBefore dv.cursor (m :: ms) with _ | i <;> dsimp only <;>
      exact adjustScroll_visible _ hh

/-- The key switch preserves cursor visibility (positive viewport). -/
theorem updateKey_visible (dv : DiffViewer) (key : String) (hh : 1 ≤ dv.height)
    (hv : cursorVisible dv) : cursorVisible (updateKey dv key).1 := by
  unfold updateKey
  by_cases h1 : key = "j" ∨ key = "down"
  · rw [if_pos h1]
    split
    · exact adjustScroll_visible _ hh
    · exact hv
  rw [if_neg h1]
  by_cases h2 : key = "k" ∨ key = "up"
  · rw [if_pos h2]
    split
    · exact adjustScroll_visible _ hh
    · exact hv
  rw [if_neg h2]
  by_cases h3 : key = "G"
  · rw [if_pos h3]
    exact adjustScroll_visible _ hh
  rw [if_neg h3]
  by_cases h4 : key = "g"
  · rw [if_pos h4]
    show (0 : Int) ≤ 0 ∧ (0 : Int) < 0 + dv.height
    omega
  rw [if_neg h4]
  by_cases h5 : key = "ctrl+d"
  · rw [if_pos h5]
    exact adjustScroll_visible _ hh
  rw [if_neg h5]
  by_cases h6 : key = "ctrl+u"
  · rw [if_pos h6]
    exact adjustScroll_visible _ hh
  rw [if_neg h6]
  by_cases h7 : key = "ctrl+f"
  · rw [if_pos h7]
    exact adjustScroll_visible _ hh
  rw [if_neg h7]
  by_cases h8 : key = "ctrl+b"
  · rw [if_pos h8]
    exact adjustScroll_visible _ hh
  rw [if_neg h8]
  by_cases h9 : key = "\x7d"
  · rw [if_pos h9]
    split <;> rename_i dv' heq <;>
      (have hjv := jumpToNextHunk_visible dv hh hv; rw [heq] at hjv; exact hjv)
  rw [if_neg h9]
  by_cases h10 : key = "\x7b"
  · rw [if_pos h10]
    split <;> rename_i dv' heq <;>
      (have hjv := jumpToPrevHunk_visible dv hh hv; rw [heq] at hjv; exact hjv)
  rw [if_neg h10]
  by_cases h11 : key = "v"
  · rw [if_pos h11]
    split <;> exact hv
  rw [if_neg h11]
  by_cases h12 : key = "esc"
  · rw [if_pos h12]
    exact hv
  rw [if_neg h12]
  by_cases h13 : key = "tab"
  · rw [if_pos h13]
    exact hv
  rw [if_neg h13]
  by_cases h14 : key = "]"
  · rw [if_pos h14]
    dsimp only
    split <;> rename_i dv' heq <;>
      (have hjv :=
        jumpToNextChange_visible { dv with preBracketCursor := dv.cursor } hh hv;
       rw [heq] at hjv; exact hjv)
  rw [if_neg h14]
  by_cases h15 : key = "["
  · rw [if_pos h15]
    dsimp only
    split <;> rename_i dv' heq <;>
      (have hjv :=
        jumpToPrevChange_visible { dv with preBracketCursor := dv.cursor } hh hv;
       rw [heq] at hjv; exact hjv)
  rw [if_neg h15]
  by_cases h16 : key = "n"
  · rw [if_pos h16]
    exact jumpToNextSearch_visible dv hh hv
  rw [if_neg h16]
  by_cases h17 : key = "N"
  · rw [if_pos h17]
    exact jumpToPrevSearch_visible dv hh hv
  rw [if_neg h17]
  exact hv

/-- **C6 (counterexample)**: the pending-bracket `c` continuation can
leave the cursor outside the viewport. In `dvPending` the cursor (8) is
visible in the window `[6, 9)`, yet pressing `c` (comment navigation
after `]` with no annotated rows) restores the cursor to the pre-bracket
position 0 **without** scroll adjustment, breaking
`offset ≤ cursor`. -/
theorem scroll_invariant_cex :
    (dvPending.lines ≠ [] ∧ 1 ≤ dvPending.height ∧ cursorVisible dvPending) ∧
    (Update dvPending "c").1.cursor = 0 ∧ (Update dvPending "c").1.offset = 6 ∧
    ¬ cursorVisible (Update dvPending "c").1 := by
  decide

/-- **C6 (amended)**: after any single key event applied to a
`DiffViewer` whose cursor is visible (rows non-empty, height ≥ 1,
`offset ≤ cursor < offset + height`) **and whose bracket prefix is not
pending**, the cursor is again visible: scroll adjustment sets
`offset := cursor` when the cursor moves above the window,
`offset := cursor − height + 1` when it moves below, and leaves the
offset unchanged otherwise. (The pending-bracket `c` continuation is the
one exception, per the counterexample.) -/
theorem scroll_invariant (dv : DiffViewer) (key : String)
    (hpb : dv.pendingBracket = zeroRune) (_hne : dv.lines ≠ [])
    (hh : 1 ≤ dv.height) (hv : cursorVisible dv) :
    cursorVisible (Update dv key).1 := by
  have hcond : ¬ (dv.pendingBracket ≠ zeroRune) := by simp [hpb]
  simp only [Update, hcond, reduceIte]
  exact updateKey_visible dv key hh hv

/-- Witness for **C6 (amended)**: a `j` keypress on a concrete viewer
keeps the cursor visible. -/
theorem scroll_invariant_witness :
    (dvFive.pendingBracket = zeroRune ∧ dvFive.lines ≠ [] ∧ 1 ≤ dvFive.height ∧
      cursorVisible dvFive) ∧
    cursorVisible (Update dvFive "j").1 :=
  ⟨by decide, scroll_invariant dvFive "j" (by decide) (by decide) (by decide) (by decide)⟩

/-! ## C9: navigation clamps the cursor -/

/-- A successful forward header scan lands between the start index and
the end of the rows. -/
theorem findHeaderFromAux_bounds {lines : List diffLine} {fuel i j : Nat}
    (h : findHeaderFromAux lines fuel i = some j) : i ≤ j ∧ j < lines.length := by
  induction fuel generalizing i with
  | zero => simp [findHeaderFromAux] at h
  | succ fuel ih =>
    simp only [findHeaderFromAux] at h
    split at h
    · split at h
      · obtain rfl := Option.some.inj h
        omega
      · have := ih h
        omega
    · simp at h

/-- A successful backward header scan lands between 0 and the start
index. -/
theorem findHeaderBackAux_bounds {lines : List diffLine} {fuel : Nat} {i j : Int}
    (h : findHeaderBackAux lines fuel i = some j) : 0 ≤ j ∧ j ≤ i := by
  induction fuel generalizing i with
  | zero => simp [findHeaderBackAux] at h
  | succ fuel ih =>
    simp only [findHeaderBackAux] at h
    split at h
    · split at h
      · obtain rfl := Option.some.inj h
        omega
      · have := ih h
        omega
    · simp at h

/-- Skipping forward never moves the index backward. -/
theorem skipChangedFromAux_ge (lines : List diffLine) (fuel : Nat) :
    ∀ i : Int, i ≤ skipChangedFromAux lines fuel i := by
  induction fuel with
  | zero => intro i; simp [skipChangedFromAux]
  | succ fuel ih =>
    intro i
    simp only [skipChangedFromAux]
    split
    · have := ih (i + 1)
      omega
    · omega

/-- Skipping forward never moves the index backward. -/
theorem skipUnchangedFromAux_ge (lines : List diffLine) (fuel : Nat) :
    ∀ i : Int, i ≤ skipUnchangedFromAux lines fuel i := by
  induction fuel with
  | zero => intro i; simp [skipUnchangedFromAux]
  | succ fuel ih =>
    intro i
    simp only [skipUnchangedFromAux]
    split
    · have := ih (i + 1)
      omega
    · omega

/-- Skipping backward never moves the index forward. -/
theorem skipUnchangedBackAux_le (lines : List diffLine) (fuel : Nat) :
    ∀ i : Int, skipUnchangedBackAux lines fuel i ≤ i := by
  induction fuel with
  | zero => intro i; simp [skipUnchangedBackAux]
  | succ fuel ih =>
    intro i
    simp only [skipUnchangedBackAux]
    split
    · have := ih (i - 1)
      omega
    · omega

/-- Walking to the block start never moves the index forward. -/
theorem skipToBlockStartAux_le (lines : List diffLine) (fuel : Nat) :
    ∀ i : Int, skipToBlockStartAux lines fuel i ≤ i := by
  induction fuel with
  | zero => intro i; simp [skipToBlockStartAux]
  | succ fuel ih =>
    intro i
    simp only [skipToBlockStartAux]
    split
    · have := ih (i - 1)
      omega
    · omega

/-- A successful forward comment scan lands between the start index and
the end of the rows. -/
theorem findCommentFromAux_bounds {cl : Int → Bool} {len : Int} {fuel : Nat} {i j : Int}
    (h : findCommentFromAux cl len fuel i = some j) : i ≤ j ∧ j < len := by
  induction fuel generalizing i with
  | zero => simp [findCommentFromAux] at h
  | succ fuel ih =>
    simp only [findCommentFromAux] at h
    split at h
    · split at h
      · obtain rfl := Option.some.inj h
        omega
      · have := ih h
        omega
    · simp at h

/-- A successful backward comment scan lands between 0 and the start
index. -/
theorem findCommentBackAux_bounds {cl : Int → Bool} {fuel : Nat} {i j : Int}
    (h : findCommentBackAux cl fuel i = some j) : 0 ≤ j ∧ j ≤ i := by
  induction fuel generalizing i with
  | zero => simp [findCommentBackAux] at h
  | succ fuel ih =>
    simp only [findCommentBackAux] at h
    split at h
    · split at h
      · obtain rfl := Option.some.inj h
        omega
      · have := ih h
        omega
    · simp at h

/-- The forward search scan returns an element of the match list. -/
theorem firstMatchAfter_mem {c : Int} {ms : List Int} {j : Int}
    (h : firstMatchAfter c ms = some j) : j ∈ ms := by
  rw [firstMatchAfter_eq_find] at h
  exact List.mem_of_find?_eq_some h

/-- The backward search scan returns an element of the match list. -/
theorem firstMatchBefore_mem {c : Int} {ms : List Int} {j : Int}
    (h : firstMatchBefore c ms = some j) : j ∈ ms := by
  rw [firstMatchBefore_eq_find] at h
  exact List.mem_reverse.mp (List.mem_of_find?_eq_some h)

/-- `adjustScroll` preserves the bookkeeping invariant whenever the new
cursor is in range. -/
theorem adjust_navOK (s : DiffViewer) (h0 : 0 ≤ s.cursor)
    (h1 : s.cursor < (s.lines.length : Int)) (hp0 : 0 ≤ s.preBracketCursor)
    (hp1 : s.preBracketCursor < (s.lines.length : Int)) :
    navOK s.lines (adjustScroll s) := by
  refine ⟨adjustScroll_lines s, ⟨?_, ?_⟩, ?_, ?_⟩ <;>
    simp only [cursorInRange, adjustScroll_cursor, adjustScroll_lines,
      adjustScroll_preBracketCursor] <;> omega

/-- A header jump keeps the rows, the cursor, and the pre-bracket cursor
within bounds. -/
theorem jumpToNextHunk_navOK (dv : DiffViewer) (hok : navOK dv.lines dv) :
    navOK dv.lines (jumpToNextHunk dv).1 := by
  obtain ⟨-, hcur, hp0, hp1⟩ := hok
  unfold jumpToNextHunk findHeaderFrom
  rcases hfind : findHeaderFromAux dv.lines (dv.lines.length - (dv.cursor + 1).toNat)
      (dv.cursor + 1).toNat with _ | i <;> simp only [hfind]
  · exact ⟨rfl, hcur, hp0, hp1⟩
  · have hb := findHeaderFromAux_bounds hfind
    exact adjust_navOK _ (by dsimp only; omega) (by dsimp only; omega) hp0 hp1

/-- A backward header jump keeps the bookkeeping invariant. -/
theorem jumpToPrevHunk_navOK (dv : DiffViewer) (hok : navOK dv.lines dv) :
    navOK dv.lines (jumpToPrevHunk dv).1 := by
  obtain ⟨-, hcur, hp0, hp1⟩ := hok
  obtain ⟨hc0, hc1⟩ := hcur
  unfold jumpToPrevHunk findHeaderBack
  rcases hfind : findHeaderBackAux dv.lines ((dv.cursor - 1) + 1).toNat (dv.cursor - 1)
      with _ | i <;> simp only [hfind]
  · exact ⟨rfl, ⟨hc0, hc1⟩, hp0, hp1⟩
  · have hb := findHeaderBackAux_bounds hfind
    exact adjust_navOK _ (by dsimp only; omega) (by dsimp only; omega) hp0 hp1

/-- A forward change-block jump keeps the bookkeeping invariant. -/
theorem jumpToNextChange_navOK (dv : DiffViewer) (hok : navOK dv.lines dv) :
    navOK dv.lines (jumpToNextChange dv).1 := by
  obtain ⟨-, ⟨hc0, hc1⟩, hp0, hp1⟩ := hok
  unfold jumpToNextChange skipUnchangedFrom skipChangedFrom
  dsimp only
  split
  · rename_i hlt
    have h1 := skipChangedFromAux_ge dv.lines
      ((dv.lines.length : Int) - dv.cursor).toNat dv.cursor
    have h2 := skipUnchangedFromAux_ge dv.lines
      ((dv.lines.length : Int) -
        skipChangedFromAux dv.lines ((dv.lines.length : Int) - dv.cursor).toNat dv.cursor).toNat
      (skipChangedFromAux dv.lines ((dv.lines.length : Int) - dv.cursor).toNat dv.cursor)
    exact adjust_navOK _ (by dsimp only; omega) (by dsimp only; omega) hp0 hp1
  · exact ⟨rfl, ⟨hc0, hc1⟩, hp0, hp1⟩

/-- A backward change-block jump keeps the bookkeeping invariant. -/
theorem jumpToPrevChange_navOK (dv : DiffViewer) (hok : navOK dv.lines dv) :
    navOK dv.lines (jumpToPrevChange dv).1 := by
  obtain ⟨-, ⟨hc0, hc1⟩, hp0, hp1⟩ := hok
  unfold jumpToPrevChange skipUnchangedBack skipToBlockStart
  dsimp only
  have hstep : (if 0 < dv.cursor ∧ isChangedLine dv.lines dv.cursor then dv.cursor - 1
      else dv.cursor) ≤ dv.cursor := by
    split <;> omega
  generalize hi0 : (if 0 < dv.cursor ∧ isChangedLine dv.lines dv.cursor then dv.cursor - 1
      else dv.cursor) = i0 at hstep
  have h1 := skipUnchangedBackAux_le dv.lines (i0 + 1).toNat i0
  have h2 := skipToBlockStartAux_le dv.lines
    (skipUnchangedBackAux dv.lines (i0 + 1).toNat i0).toNat
    (skipUnchangedBackAux dv.lines (i0 + 1).toNat i0)
  split
  · rename_i hcond
    exact adjust_navOK _ (by dsimp only; exact hcond.1) (by dsimp only; omega) hp0 hp1
  · exact ⟨rfl, ⟨hc0, hc1⟩, hp0, hp1⟩

/-- A forward search jump keeps the bookkeeping invariant when every
recorded match is a row index. -/
theorem jumpToNextSearch_navOK (dv : DiffViewer) (hok : navOK dv.lines dv)
    (hm : ∀ m ∈ dv.searchMatches, 0 ≤ m ∧ m < (dv.lines.length : Int)) :
    navOK dv.lines (jumpToNextSearch dv) := by
  obtain ⟨-, hcur, hp0, hp1⟩ := hok
  unfold jumpToNextSearch
  rcases hms : dv.searchMatches with _ | ⟨m, ms⟩ <;> dsimp only
  · exact ⟨rfl, hcur, hp0, hp1⟩
  · have hmem : ∀ x ∈ m :: ms, 0 ≤ x ∧ x < (dv.lines.length : Int) := by
      rw [← hms]; exact hm
    rcases hfa : firstMatchAfter dv.cursor (m :: ms) with _ | i <;> dsimp only
    · have := hmem m (by simp)
      exact adjust_navOK _ (by dsimp only; exact this.1) (by dsimp only; exact this.2) hp0 hp1
    · have := hmem i (firstMatchAfter_mem hfa)
      exact adjust_navOK _ (by dsimp only; exact this.1) (by dsimp only; exact this.2) hp0 hp1

/-- A backward search jump keeps the bookkeeping invariant when every
recorded match is a row index. -/
theorem jumpToPrevSearch_navOK (dv : DiffViewer) (hok : navOK dv.lines dv)
    (hm : ∀ m ∈ dv.searchMatches, 0 ≤ m ∧ m < (dv.lines.length : Int)) :
    navOK dv.lines (jumpToPrevSearch dv) := by
  obtain ⟨-, hcur, hp0, hp1⟩ := hok
  unfold jumpToPrevSearch
  rcases hms : dv.searchMatches with _ | ⟨m, ms⟩ <;> dsimp only
  · exact ⟨rfl, hcur, hp0, hp1⟩
  · have hmem : ∀ x ∈ m :: ms, 0 ≤ x ∧ x < (dv.lines.length : Int) := by
      rw [← hms]; exact hm
    rcases hfb : firstMatchBefore dv.cursor (m :: ms) with _ | i <;> dsimp only
    · have := hmem ((m :: ms).getLast (List.cons_ne_nil m ms)) (List.getLast_mem _)
      exact adjust_navOK _ (by dsimp only; exact this.1) (by dsimp only; exact this.2) hp0 hp1
    · have := hmem i (firstMatchBefore_mem hfb)
      exact adjust_navOK _ (by dsimp only; exact this.1) (by dsimp only; exact this.2) hp0 hp1

/-- The key switch preserves the bookkeeping invariant (non-empty rows,
non-negative viewport height, in-range search matches). -/
theorem updateKey_navOK (dv : DiffViewer) (key : String)
    (hok : navOK dv.lines dv) (hh : 0 ≤ dv.height)
    (hm : ∀ m ∈ dv.searchMatches, 0 ≤ m ∧ m < (dv.lines.length : Int)) :
    navOK dv.lines (updateKey dv key).1 := by
  obtain ⟨-, ⟨hc0, hc1⟩, hp0, hp1⟩ := hok
  have hdiv : 0 ≤ goDiv dv.height 2 := Int.tdiv_nonneg hh (by omega)
  unfold updateKey
  by_cases h1 : key = "j" ∨ key = "down"
  · rw [if_pos h1]
    split
    · exact adjust_navOK _ (by dsimp only; omega) (by dsimp only; omega) hp0 hp1
    · exact ⟨rfl, ⟨hc0, hc1⟩, hp0, hp1⟩
  rw [if_neg h1]
  by_cases h2 : key = "k" ∨ key = "up"
  · rw [if_pos h2]
    split
    · exact adjust_navOK _ (by dsimp only; omega) (by dsimp only; omega) hp0 hp1
    · exact ⟨rfl, ⟨hc0, hc1⟩, hp0, hp1⟩
  rw [if_neg h2]
  by_cases h3 : key = "G"
  · rw [if_pos h3]
    exact adjust_navOK _ (by dsimp only; omega) (by dsimp only; omega) hp0 hp1
  rw [if_neg h3]
  by_cases h4 : key = "g"
  · rw [if_pos h4]
    exact ⟨rfl, ⟨le_refl 0, by dsimp only; omega⟩, hp0, hp1⟩
  rw [if_neg h4]
  by_cases h5 : key = "ctrl+d"
  · rw [if_pos h5]
    dsimp only
    split <;> exact adjust_navOK _ (by dsimp only; omega) (by dsimp only; omega) hp0 hp1
  rw [if_neg h5]
  by_cases h6 : key = "ctrl+u"
  · rw [if_pos h6]
    dsimp only
    split <;> exact adjust_navOK _ (by dsimp only; omega) (by dsimp only; omega) hp0 hp1
  rw [if_neg h6]
  by_cases h7 : key = "ctrl+f"
  · rw [if_pos h7]
    dsimp only
    split <;> exact adjust_navOK _ (by dsimp only; omega) (by dsimp only; omega) hp0 hp1
  rw [if_neg h7]
  by_cases h8 : key = "ctrl+b"
  · rw [if_pos h8]
    dsimp only
    split <;> exact adjust_navOK _ (by dsimp only; omega) (by dsimp only; omega) hp0 hp1
  rw [if_neg h8]
  by_cases h9 : key = "\x7d"
  · rw [if_pos h9]
    split <;> rename_i dv' heq <;>
      (have hjv := jumpToNextHunk_navOK dv ⟨rfl, ⟨hc0, hc1⟩, hp0, hp1⟩;
       rw [heq] at hjv; exact hjv)
  rw [if_neg h9]
  by_cases h10 : key = "\x7b"
  · rw [if_pos h10]
    split <;> rename_i dv' heq <;>
      (have hjv := jumpToPrevHunk_navOK dv ⟨rfl, ⟨hc0, hc1⟩, hp0, hp1⟩;
       rw [heq] at hjv; exact hjv)
  rw [if_neg h10]
  by_cases h11 : key = "v"
  · rw [if_pos h11]
    split <;> exact ⟨rfl, ⟨hc0, hc1⟩, hp0, hp1⟩
  rw [if_neg h11]
  by_cases h12 : key = "esc"
  · rw [if_pos h12]
    exact ⟨rfl, ⟨hc0, hc1⟩, hp0, hp1⟩
  rw [if_neg h12]
  by_cases h13 : key = "tab"
  · rw [if_pos h13]
    exact ⟨rfl, ⟨hc0, hc1⟩, hp0, hp1⟩
  rw [if_neg h13]
  by_cases h14 : key = "]"
  · rw [if_pos h14]
    dsimp only
    split <;> rename_i dv' heq <;>
      (have hjv := jumpToNextChange_navOK { dv with preBracketCursor := dv.cursor }
        ⟨rfl, ⟨hc0, hc1⟩, hc0, hc1⟩;
       rw [heq] at hjv; exact hjv)
  rw [if_neg h14]
  by_cases h15 : key = "["
  · rw [if_pos h15]
    dsimp only
    split <;> rename_i dv' heq <;>
      (have hjv := jumpToPrevChange_navOK { dv with preBracketCursor := dv.cursor }
        ⟨rfl, ⟨hc0, hc1⟩, hc0, hc1⟩;
       rw [heq] at hjv; exact hjv)
  rw [if_neg h15]
  by_cases h16 : key = "n"
  · rw [if_pos h16]
    exact jumpToNextSearch_navOK dv ⟨rfl, ⟨hc0, hc1⟩, hp0, hp1⟩ hm
  rw [if_neg h16]
  by_cases h17 : key = "N"
  · rw [if_pos h17]
    exact jumpToPrevSearch_navOK dv ⟨rfl, ⟨hc0, hc1⟩, hp0, hp1⟩ hm
  rw [if_neg h17]
  exact ⟨rfl, ⟨hc0, hc1⟩, hp0, hp1⟩

/-- **C9 (counterexample)**: navigation does not always clamp into
`[0, len(rows)-1]` (with cursor `0` for empty rows): on a viewer with no
rows and cursor `0`, pressing `G` sets the cursor to `len(rows) - 1 = -1`,
not `0`. -/
theorem nav_clamp_cex :
    dvEmpty.lines = [] ∧ dvEmpty.cursor = 0 ∧
    (Update dvEmpty "G").1.cursor = -1 ∧ ¬ (Update dvEmpty "G").1.cursor = 0 := by
  decide

/-- **C9 (amended)**: on non-empty rows, every key event is total and
clamps: if the cursor and the recorded pre-bracket cursor address rows,
the viewport height is non-negative, and every search match addresses a
row, then after any single key event the rows are unchanged and the
cursor and pre-bracket cursor again address rows (no out-of-range row is
ever selected). (For empty rows the `G` key escapes to `-1`, per the
counterexample.) -/
theorem nav_clamp (dv : DiffViewer) (key : String)
    (hok : navOK dv.lines dv) (hh : 0 ≤ dv.height)
    (hm : ∀ m ∈ dv.searchMatches, 0 ≤ m ∧ m < (dv.lines.length : Int)) :
    navOK dv.lines (Update dv key).1 := by
  obtain ⟨-, ⟨hc0, hc1⟩, hp0, hp1⟩ := hok
  unfold Update
  split
  · split
    · rename_i hpb hkey
      dsimp only
      split
      · unfold jumpToNextComment findCommentFrom
        rcases hf : findCommentFromAux dv.commentLines (dv.lines.length : Int)
            ((dv.lines.length : Int) - (dv.preBracketCursor + 1)).toNat
            (dv.preBracketCursor + 1) with _ | i <;> dsimp only
        · exact ⟨rfl, ⟨hp0, hp1⟩, hp0, hp1⟩
        · have hb := findCommentFromAux_bounds hf
          have := adjust_navOK { dv with cursor := i }
            (by dsimp only; omega) (by dsimp only; omega) hp0 hp1
          exact ⟨this.1, this.2.1, this.2.2.1, this.2.2.2⟩
      · unfold jumpToPrevComment findCommentBack
        rcases hf : findCommentBackAux dv.commentLines
            ((dv.preBracketCursor - 1) + 1).toNat (dv.preBracketCursor - 1) with _ | i <;>
          dsimp only
        · exact ⟨rfl, ⟨hp0, hp1⟩, hp0, hp1⟩
        · have hb := findCommentBackAux_bounds hf
          have := adjust_navOK { dv with cursor := i }
            (by dsimp only; omega) (by dsimp only; omega) hp0 hp1
          exact ⟨this.1, this.2.1, this.2.2.1, this.2.2.2⟩
    · exact updateKey_navOK _ key ⟨rfl, ⟨hc0, hc1⟩, hp0, hp1⟩ hh hm
  · exact updateKey_navOK _ key ⟨rfl, ⟨hc0, hc1⟩, hp0, hp1⟩ hh hm

/-- Witness for **C9 (amended)**: a concrete viewer and a `ctrl+d` page
move stay in bounds. -/
theorem nav_clamp_witness :
    (navOK dvFive.lines dvFive ∧ 0 ≤ dvFive.height ∧
      ∀ m ∈ dvFive.searchMatches, 0 ≤ m ∧ m < (dvFive.lines.length : Int)) ∧
    navOK dvFive.lines (Update dvFive "ctrl+d").1 :=
  ⟨⟨by decide, by decide, by decide⟩,
   nav_clamp dvFive "ctrl+d" (by decide) (by decide) (by decide)⟩

/-! ## C1: parsed line-number invariants -/

/-- Number assignment never changes which side a line belongs to. -/
theorem assignLines_any_oldSide (ls : List Line) :
    ∀ o n, (assignLines o n ls).any oldSide = ls.any oldSide := by
  induction ls with
  | nil => intros; rfl
  | cons l0 ls ih =>
    intro o n
    cases h0 : l0.typ <;> simp [assignLines, h0, ih, oldSide]

/-- Number assignment never changes which side a line belongs to. -/
theorem assignLines_any_newSide (ls : List Line) :
    ∀ o n, (assignLines o n ls).any newSide = ls.any newSide := by
  induction ls with
  | nil => intros; rfl
  | cons l0 ls ih =>
    intro o n
    cases h0 : l0.typ <;> simp [assignLines, h0, ih, newSide]

/-- Kind/number invariant of `assignLines`: starting from unnumbered lines
with positive seeds (whenever the corresponding side is inhabited), added
lines get only a new number, removed lines only an old number, and
context lines both. -/
theorem assignLines_kinds (ls : List Line) :
    ∀ o n, (∀ l ∈ ls, l.OldLineNo = 0 ∧ l.NewLineNo = 0) →
    (ls.any oldSide → 1 ≤ o) → (ls.any newSide → 1 ≤ n) →
    ∀ l ∈ assignLines o n ls,
      (l.typ = .added → 0 < l.NewLineNo ∧ l.OldLineNo = 0) ∧
      (l.typ = .removed → 0 < l.OldLineNo ∧ l.NewLineNo = 0) ∧
      (l.typ = .context → 0 < l.OldLineNo ∧ 0 < l.NewLineNo) := by
  induction ls with
  | nil => intro o n _ _ _ l hl; simp [assignLines] at hl
  | cons l0 ls ih =>
    intro o n hz ho hn l hl
    have hz0 := hz l0 (by simp)
    have hzt : ∀ l' ∈ ls, l'.OldLineNo = 0 ∧ l'.NewLineNo = 0 :=
      fun l' hl' => hz l' (by simp [hl'])
    cases h0 : l0.typ with
    | context =>
      have ho1 : 1 ≤ o := ho (by simp [oldSide, h0])
      have hn1 : 1 ≤ n := hn (by simp [newSide, h0])
      simp only [assignLines, h0] at hl
      rcases List.mem_cons.mp hl with rfl | hl2
      · refine ⟨?_, ?_, ?_⟩ <;> intro ht <;> simp [h0] at ht ⊢ <;> omega
      · exact ih (o + 1) (n + 1) hzt (fun _ => by omega) (fun _ => by omega) l hl2
    | added =>
      have hn1 : 1 ≤ n := hn (by simp [newSide, h0])
      simp only [assignLines, h0] at hl
      rcases List.mem_cons.mp hl with rfl | hl2
      · refine ⟨?_, ?_, ?_⟩ <;> intro ht <;> simp [h0] at ht ⊢ <;>
          exact ⟨by omega, hz0.1⟩
      · refine ih o (n + 1) hzt (fun ha => ho ?_) (fun _ => by omega) l hl2
        simp only [List.any_cons, ha, Bool.or_true]
    | removed =>
      have ho1 : 1 ≤ o := ho (by simp [oldSide, h0])
      simp only [assignLines, h0] at hl
      rcases List.mem_cons.mp hl with rfl | hl2
      · refine ⟨?_, ?_, ?_⟩ <;> intro ht <;> simp [h0] at ht ⊢ <;>
          exact ⟨by omega, hz0.2⟩
      · refine ih (o + 1) n hzt (fun _ => by omega) (fun ha => hn ?_) l hl2
        simp only [List.any_cons, ha, Bool.or_true]

/-- The old-side numbers produced by `assignLines` are the consecutive
run starting at the old seed. -/
theorem assignLines_old_map (ls : List Line) :
    ∀ o n, ((assignLines o n ls).filter oldSide).map Line.OldLineNo
      = List.range' o (ls.filter oldSide).length := by
  induction ls with
  | nil => intros; rfl
  | cons l0 ls ih =>
    intro o n
    cases h0 : l0.typ with
    | context =>
      simp [assignLines, h0, List.filter_cons, oldSide, ih, List.range'_succ]
    | added =>
      simp [assignLines, h0, List.filter_cons, oldSide, ih]
    | removed =>
      simp [assignLines, h0, List.filter_cons, oldSide, ih, List.range'_succ]

/-- The new-side numbers produced by `assignLines` are the consecutive
run starting at the new seed. -/
theorem assignLines_new_map (ls : List Line) :
    ∀ o n, ((assignLines o n ls).filter newSide).map Line.NewLineNo
      = List.range' n (ls.filter newSide).length := by
  induction ls with
  | nil => intros; rfl
  | cons l0 ls ih =>
    intro o n
    cases h0 : l0.typ with
    | context =>
      simp [assignLines, h0, List.filter_cons, newSide, ih, List.range'_succ]
    | added =>
      simp [assignLines, h0, List.filter_cons, newSide, ih, List.range'_succ]
    | removed =>
      simp [assignLines, h0, List.filter_cons, newSide, ih]

/-- A hunk of `appendLineToLast hs l` is either an original hunk or an
original hunk with `l` appended. -/
theorem mem_appendLineToLast {hs : List Hunk} {l : Line} {h' : Hunk}
    (hmem : h' ∈ appendLineToLast hs l) :
    h' ∈ hs ∨ ∃ h'' ∈ hs, h' = { h'' with Lines := h''.Lines ++ [l] } := by
  induction hs with
  | nil => simp [appendLineToLast] at hmem
  | cons h0 hs ih =>
    cases hs with
    | nil =>
      simp only [appendLineToLast, List.mem_singleton] at hmem
      exact Or.inr ⟨h0, by simp, hmem⟩
    | cons h1 hs2 =>
      simp only [appendLineToLast] at hmem
      rcases List.mem_cons.mp hmem with rfl | hmem2
      · exact Or.inl (by simp)
      · rcases ih hmem2 with hin | ⟨h'', hin, heq⟩
        · exact Or.inl (List.mem_cons_of_mem _ hin)
        · exact Or.inr ⟨h'', List.mem_cons_of_mem _ hin, heq⟩

/-- The scan loop only ever creates lines with both numbers unset. -/
theorem parseStep_zeroed (st : List FileDiff × Option FileDiff) (line : List Char)
    (hz : ∀ fd ∈ st.1 ++ st.2.toList, ∀ h ∈ fd.Hunks, ∀ l ∈ h.Lines,
      l.OldLineNo = 0 ∧ l.NewLineNo = 0) :
    ∀ fd ∈ (parseStep st line).1 ++ (parseStep st line).2.toList, ∀ h ∈ fd.Hunks,
      ∀ l ∈ h.Lines, l.OldLineNo = 0 ∧ l.NewLineNo = 0 := by
  obtain ⟨diffs, current⟩ := st
  have hpush : ∀ (cur : FileDiff) (nl : Line),
      nl.OldLineNo = 0 ∧ nl.NewLineNo = 0 →
      (∀ fd ∈ diffs ++ [cur], ∀ h ∈ fd.Hunks, ∀ l ∈ h.Lines,
        l.OldLineNo = 0 ∧ l.NewLineNo = 0) →
      ∀ fd ∈ diffs ++ [{ cur with Hunks := appendLineToLast cur.Hunks nl }],
        ∀ h ∈ fd.Hunks, ∀ l ∈ h.Lines, l.OldLineNo = 0 ∧ l.NewLineNo = 0 := by
    intro cur nl hnl hz' fd hfd h hh l hl
    rcases List.mem_append.mp hfd with hfd | hfd
    · exact hz' fd (List.mem_append.mpr (Or.inl hfd)) h hh l hl
    · obtain rfl := List.mem_singleton.mp hfd
      rcases mem_appendLineToLast hh with hin | ⟨h'', hin, rfl⟩
      · exact hz' cur (by simp) h hin l hl
      · rcases List.mem_append.mp hl with hl | hl
        · exact hz' cur (by simp) h'' hin l hl
        · obtain rfl := List.mem_singleton.mp hl
          exact hnl
  unfold parseStep
  dsimp only
  split
  · intro fd hfd h hh l hl
    dsimp only at hfd
    rcases List.mem_append.mp hfd with hfd | hfd
    · exact hz fd hfd h hh l hl
    · obtain rfl := List.mem_singleton.mp hfd
      simp at hh
  · split
    · exact hz
    · split
      · split
        · intro fd hfd
          exact hz fd hfd
        · rename_i cur
          intro fd hfd h hh l hl
          dsimp only at hfd
          rcases List.mem_append.mp hfd with hfd | hfd
          · exact hz fd (List.mem_append.mpr (Or.inl hfd)) h hh l hl
          · obtain rfl := List.mem_singleton.mp hfd
            dsimp only at hh
            rcases List.mem_append.mp hh with hh | hh
            · exact hz cur (by simp) h hh l hl
            · obtain rfl := List.mem_singleton.mp hh
              simp at hl
      · split
        · exact hz
        · split
          · intro fd hfd
            exact hz fd hfd
          · rename_i cur
            split
            · exact hz
            · have hz' : ∀ fd ∈ diffs ++ [cur], ∀ h ∈ fd.Hunks, ∀ l ∈ h.Lines,
                  l.OldLineNo = 0 ∧ l.NewLineNo = 0 := hz
              split
              · exact hpush cur _ ⟨rfl, rfl⟩ hz'
              split
              · exact hpush cur _ ⟨rfl, rfl⟩ hz'
              split
              · exact hpush cur _ ⟨rfl, rfl⟩ hz'
              split
              · exact hpush cur _ ⟨rfl, rfl⟩ hz'
              exact hz'

/-- Folding the scan preserves the unnumbered-lines invariant. -/
theorem foldl_parseStep_zeroed (lines : List (List Char)) :
    ∀ st, (∀ fd ∈ st.1 ++ st.2.toList, ∀ h ∈ fd.Hunks, ∀ l ∈ h.Lines,
      l.OldLineNo = 0 ∧ l.NewLineNo = 0) →
    ∀ fd ∈ (lines.foldl parseStep st).1 ++ (lines.foldl parseStep st).2.toList,
      ∀ h ∈ fd.Hunks, ∀ l ∈ h.Lines, l.OldLineNo = 0 ∧ l.NewLineNo = 0 := by
  induction lines with
  | nil => intro st h; exact h
  | cons l ls ih => intro st h; exact ih _ (parseStep_zeroed st l h)

/-- The first parsing pass produces only unnumbered lines. -/
theorem parseDiffRaw_zeroed (lines : List (List Char)) :
    ∀ fd ∈ parseDiffRaw lines, ∀ h ∈ fd.Hunks, ∀ l ∈ h.Lines,
      l.OldLineNo = 0 ∧ l.NewLineNo = 0 := by
  unfold parseDiffRaw
  exact foldl_parseStep_zeroed lines ([], none) (by simp)

/-- **C1**: for every `FileDiff` produced by `ParseDiff` from valid
unified-diff text — validity formalised as `validHunk`: a hunk header
side starting at `0` carries no lines of that side — every line of every
hunk satisfies: an added line has `NewLineNo > 0` and `OldLineNo = 0`, a
removed line has `OldLineNo > 0` and `NewLineNo = 0`, a context line has
both positive; and on each side the assigned numbers are strictly
increasing across the hunk. -/
theorem parse_line_numbers (raw : String)
    (hval : ∀ fd ∈ (ParseDiff raw).1, ∀ h ∈ fd.Hunks, validHunk h) :
    ∀ fd ∈ (ParseDiff raw).1, ∀ h ∈ fd.Hunks,
      (∀ l ∈ h.Lines,
        (l.typ = .added → 0 < l.NewLineNo ∧ l.OldLineNo = 0) ∧
        (l.typ = .removed → 0 < l.OldLineNo ∧ l.NewLineNo = 0) ∧
        (l.typ = .context → 0 < l.OldLineNo ∧ 0 < l.NewLineNo)) ∧
      ((h.Lines.filter oldSide).map Line.OldLineNo).Pairwise (· < ·) ∧
      ((h.Lines.filter newSide).map Line.NewLineNo).Pairwise (· < ·) := by
  by_cases hraw : raw = ""
  · intro fd hfd
    rw [ParseDiff, if_pos hraw] at hfd
    simp at hfd
  · intro fd hfd h hh
    have hv : validHunk h := hval fd hfd h hh
    rw [ParseDiff, if_neg hraw] at hfd
    dsimp only at hfd
    obtain ⟨fd0, hfd0, rfl⟩ := List.mem_map.mp hfd
    dsimp only at hh
    obtain ⟨h0, hh0, rfl⟩ := List.mem_map.mp hh
    have hzl : ∀ l ∈ h0.Lines, l.OldLineNo = 0 ∧ l.NewLineNo = 0 :=
      parseDiffRaw_zeroed _ fd0 hfd0 h0 hh0
    have ho : h0.Lines.any oldSide → 1 ≤ h0.OldStart := by
      intro ha
      exact hv.1 (by
        show (assignLines h0.OldStart h0.NewStart h0.Lines).any oldSide = true
        rw [assignLines_any_oldSide]
        exact ha)
    have hn : h0.Lines.any newSide → 1 ≤ h0.NewStart := by
      intro ha
      exact hv.2 (by
        show (assignLines h0.OldStart h0.NewStart h0.Lines).any newSide = true
        rw [assignLines_any_newSide]
        exact ha)
    refine ⟨?_, ?_, ?_⟩
    · exact assignLines_kinds h0.Lines h0.OldStart h0.NewStart hzl ho hn
    · show (((assignLines h0.OldStart h0.NewStart h0.Lines).filter oldSide).map
        Line.OldLineNo).Pairwise (· < ·)
      rw [assignLines_old_map]
      exact List.pairwise_lt_range' _ _
    · show (((assignLines h0.OldStart h0.NewStart h0.Lines).filter newSide).map
        Line.NewLineNo).Pairwise (· < ·)
      rw [assignLines_new_map]
      exact List.pairwise_lt_range' _ _

/-- Witness for **C1** on the spec's example hunk (with its `diff --git`
preamble): validity holds and the parsed numbers satisfy the
invariant. -/
theorem parse_line_numbers_witness :
    (∀ fd ∈ (ParseDiff rawExample).1, ∀ h ∈ fd.Hunks, validHunk h) ∧
    (∀ fd ∈ (ParseDiff rawExample).1, ∀ h ∈ fd.Hunks,
      (∀ l ∈ h.Lines,
        (l.typ = .added → 0 < l.NewLineNo ∧ l.OldLineNo = 0) ∧
        (l.typ = .removed → 0 < l.OldLineNo ∧ l.NewLineNo = 0) ∧
        (l.typ = .context → 0 < l.OldLineNo ∧ 0 < l.NewLineNo)) ∧
      ((h.Lines.filter oldSide).map Line.OldLineNo).Pairwise (· < ·) ∧
      ((h.Lines.filter newSide).map Line.NewLineNo).Pairwise (· < ·)) :=
  ⟨by decide, parse_line_numbers rawExample (by decide)⟩

end Revui
